import Mathlib

/-!
# NetAuth: plugin manager, hooks, flat-file store and server startup

A shallow embedding of `internal/plugin/tree/manager/manager.go`,
`internal/db/impl/protodb/protodb.go` and `cmd/netauthd/main.go`, and of the two
hooks of `internal/tree/hooks` whose tests are at hand, followed by the
properties established about them.
-/

namespace NetAuth

/-! ## Protocol records and error values -/

/-- Protocol record `pb.Entity`: every field is an optional (pointer) field. -/
structure Entity where
  ID : Option String := none
  Number : Option Int := none
  Secret : Option String := none
deriving DecidableEq, Repr

/-- Protocol record `pb.Group`: every field is an optional (pointer) field. -/
structure Group where
  Name : Option String := none
  Number : Option Int := none
  ManagedBy : Option String := none
deriving DecidableEq, Repr

/-- Getter `GetID`: the empty string when the field is unset. -/
def Entity.GetID (e : Entity) : String := e.ID.getD ""

/-- Getter `GetNumber`: zero when the field is unset. -/
def Entity.GetNumber (e : Entity) : Int := e.Number.getD 0

/-- Getter `GetName`: the empty string when the field is unset. -/
def Group.GetName (g : Group) : String := g.Name.getD ""

/-- Getter `GetNumber`: zero when the field is unset. -/
def Group.GetNumber (g : Group) : Int := g.Number.getD 0

/-- Getter `GetManagedBy`: the empty string when the field is unset. -/
def Group.GetManagedBy (g : Group) : String := g.ManagedBy.getD ""

/-- Error numbers a file operation can fail with. -/
inductive Errno
  | ENOENT
  | EACCES
  | EISDIR
  | ENOTDIR
  | ENOTEMPTY
  | EINVAL
deriving DecidableEq, Repr

/-- Go `error` values that occur in the embedded code. -/
inductive Error
  | ErrUnknownEntity
  | ErrUnknownGroup
  | ErrInternalError
  | ErrDuplicateEntityID
  | pluginError (msg : String)
  | pathError (e : Errno)
deriving DecidableEq, Repr

/-- Equality of Go results `(value, error)` can be decided. -/
instance instDecidableEqExcept {ε α : Type} [DecidableEq ε] [DecidableEq α] :
    DecidableEq (Except ε α)
  | .ok a, .ok b => if h : a = b then isTrue (by rw [h]) else isFalse (by intro h2; cases h2; exact h rfl)
  | .error a, .error b =>
    if h : a = b then isTrue (by rw [h]) else isFalse (by intro h2; cases h2; exact h rfl)
  | .ok _, .error _ => isFalse (by intro h; cases h)
  | .error _, .ok _ => isFalse (by intro h; cases h)

/-! ## Go library functions and the file system -/

/-- Go `strings.Split(s, sep)` for a one-character separator, on the
characters of `s`: the pieces between the separators; a string without the
separator is the single piece. -/
def splitOnChar (sep : Char) : List Char → List (List Char)
  | [] => [[]]
  | c :: cs =>
    if c = sep then [] :: splitOnChar sep cs
    else
      match splitOnChar sep cs with
      | [] => [[c]]
      | w :: ws => (c :: w) :: ws

/-- Does `pre` start the list `l`? -/
def startsWith (pre : List Char) : List Char → Bool
  | l => pre.isPrefixOf l

/-- Go `strings.Replace(s, old, "", 1)`: `s` without the first occurrence of
`old` (which is not empty here). -/
def removeFirst (old : List Char) : List Char → List Char
  | [] => []
  | c :: cs => if startsWith old (c :: cs) then (c :: cs).drop old.length
               else c :: removeFirst old cs

/-- Go `filepath.Match(pattern, name)` for a file name (no separator in it) and
the patterns that occur here: a star followed by plain characters matches the
names that end in these characters; a pattern of plain characters matches
itself. -/
def Match (pattern name : String) : Bool :=
  match pattern.toList with
  | '*' :: suffix => suffix.isSuffixOf name.toList
  | plain => plain = name.toList

/-- Order of `sort.Strings`: by code points, which is the order of the bytes. -/
def lexLe : List Char → List Char → Bool
  | [], _ => true
  | _ :: _, [] => false
  | a :: as, b :: bs => a.toNat < b.toNat || (a.toNat == b.toNat && lexLe as bs)

/-- Insertion of a name into a sorted list of names. -/
def insertName (n : String) : List String → List String
  | [] => [n]
  | m :: ms => if lexLe n.toList m.toList then n :: m :: ms else m :: insertName n ms

/-- Go `sort.Strings`. -/
def sortStrings (l : List String) : List String := l.foldr insertName []

/-- A cleaned path: whether it starts at the file-system root, and its
components. -/
structure Path where
  rooted : Bool
  comps : List String
deriving DecidableEq, Repr

/-- The component rules of `filepath.Clean`: empty and "." components are
dropped, ".." removes the component before it, is dropped at the root and is
kept at the start of a relative path. `acc` is the result so far, reversed. -/
def cleanComps (rooted : Bool) : List String → List String → List String
  | [], acc => acc.reverse
  | c :: cs, acc =>
    if c = "" ∨ c = "." then cleanComps rooted cs acc
    else if c = ".." then
      match acc with
      | [] => if rooted then cleanComps rooted cs [] else cleanComps rooted cs [".."]
      | top :: rest =>
        if top = ".." then cleanComps rooted cs (".." :: top :: rest)
        else cleanComps rooted cs rest
    else cleanComps rooted cs (c :: acc)

/-- Go `filepath.Join`: the non-empty elements joined by "/" and cleaned. -/
def Join (elems : List String) : Path :=
  let parts := (elems.filter fun e => e ≠ "").map String.toList
  { rooted := (parts.head?.bind List.head?) = some '/',
    comps := cleanComps ((parts.head?.bind List.head?) = some '/')
      ((parts.map fun e => (splitOnChar '/' e).map String.mk).flatten) [] }

/-- Go `filepath.Base` of a cleaned path with at least one component. -/
def Base (p : Path) : String := p.comps.getLastD (if p.rooted then "/" else ".")

/-- The directory a path lies in. -/
def Path.parent (p : Path) : Path := { p with comps := p.comps.dropLast }

/-- File contents. -/
abbrev Bytes := List Nat

/-- A regular file: its contents and whether the server process may read and
write it. -/
structure File where
  data : Bytes
  readable : Bool := true
  writable : Bool := true
deriving DecidableEq, Repr

/-- The file system: the directories that exist, each with whether the server
process may add and remove entries in it, and the regular files. -/
structure FS where
  dirs : List (Path × Bool)
  files : List (Path × File)
deriving DecidableEq, Repr

/-- The directory at `p`, if there is one: its write permission. -/
def FS.dir? (fs : FS) (p : Path) : Option Bool :=
  (fs.dirs.find? fun d => d.1 = p).map Prod.snd

/-- The regular file at `p`, if there is one. -/
def FS.file? (fs : FS) (p : Path) : Option File :=
  (fs.files.find? fun f => f.1 = p).map Prod.snd

/-- Is some proper prefix of `p` a regular file? -/
def FS.underFile (fs : FS) (p : Path) : Bool :=
  p.comps.inits.dropLast.any fun q => (fs.file? { p with comps := q }).isSome

/-- A path with a NUL character in it is refused by every system call
(EINVAL). -/
def hasNul (p : Path) : Bool := p.comps.any fun c => c.toList.contains (Char.ofNat 0)

/-- Go `os.IsNotExist`. -/
def IsNotExist : Errno → Bool
  | .ENOENT => true
  | _ => false

/-- Go `ioutil.ReadFile`. -/
def ReadFile (fs : FS) (p : Path) : Except Errno Bytes :=
  if hasNul p then .error .EINVAL
  else if (fs.dir? p).isSome then .error .EISDIR
  else
    match fs.file? p with
    | some f => if f.readable then .ok f.data else .error .EACCES
    | none => if fs.underFile p then .error .ENOTDIR else .error .ENOENT

/-- Replace the file at `p`, or add it. -/
def setFile (p : Path) (f : File) : List (Path × File) → List (Path × File)
  | [] => [(p, f)]
  | (q, g) :: rest => if q = p then (p, f) :: rest else (q, g) :: setFile p f rest

/-- Go `ioutil.WriteFile(p, data, 0644)`: an existing file is truncated and
written, which needs write permission on the file; a new file is created, which
needs the directory to exist and be writable. -/
def WriteFile (fs : FS) (p : Path) (data : Bytes) : Except Errno FS :=
  if hasNul p then .error .EINVAL
  else if (fs.dir? p).isSome then .error .EISDIR
  else
    match fs.file? p with
    | some f =>
      if f.writable then .ok { fs with files := setFile p { f with data := data } fs.files }
      else .error .EACCES
    | none =>
      match fs.dir? p.parent with
      | some true => .ok { fs with files := setFile p { data := data } fs.files }
      | some false => .error .EACCES
      | none => if fs.underFile p then .error .ENOTDIR else .error .ENOENT

/-- Does the directory `p` have an entry? -/
def FS.hasEntry (fs : FS) (p : Path) : Bool :=
  fs.files.any (fun f => f.1.parent = p ∧ f.1 ≠ p) ||
    fs.dirs.any (fun d => d.1.parent = p ∧ d.1 ≠ p)

/-- Go `os.Remove`: removes the file or the empty directory at `p`, which needs
write permission on the directory it lies in. -/
def Remove (fs : FS) (p : Path) : Except Errno FS :=
  if hasNul p then .error .EINVAL
  else
    match fs.file? p with
    | some _ =>
      if fs.dir? p.parent = some true
      then .ok { fs with files := fs.files.filter fun f => f.1 ≠ p }
      else .error .EACCES
    | none =>
      match fs.dir? p with
      | some _ =>
        if fs.hasEntry p then .error .ENOTEMPTY
        else if fs.dir? p.parent = some true
        then .ok { fs with dirs := fs.dirs.filter fun d => d.1 ≠ p }
        else .error .EACCES
      | none => if fs.underFile p then .error .ENOTDIR else .error .ENOENT

/-- Go `filepath.Glob(pattern)` for a pattern whose directory part has no
pattern characters: the entries of that directory whose name matches the last
component, names sorted, each joined to the directory. A malformed pattern is
the only error `Glob` returns, and the patterns here are well formed; a
directory that does not exist yields no match. -/
def Glob (fs : FS) (pattern : Path) : Except Errno (List Path) :=
  if (fs.dir? pattern.parent).isSome then
    .ok ((sortStrings ((((fs.files.map Prod.fst) ++ (fs.dirs.map Prod.fst)).filter
      fun q => q.parent = pattern.parent ∧ q ≠ pattern.parent ∧
        Match (Base pattern) (Base q)).map Base)).map
      fun n => { pattern.parent with comps := pattern.parent.comps ++ [n] })
  else .ok []

/-! ## Flat-file store (`protodb.go`) -/

/-- The constant `entitySubdir`. -/
def entitySubdir : String := "entities"

/-- The constant `groupSubdir`. -/
def groupSubdir : String := "groups"

/-- The type `ProtoDB`; `dataRoot` is a directory path without pattern
characters. -/
structure ProtoDB where
  dataRoot : String

/-- The functions `proto.Marshal` and `proto.Unmarshal` for the two record
types; `none` is a non-nil error. -/
structure Proto where
  MarshalEntity : Entity → Option Bytes
  UnmarshalEntity : Bytes → Option Entity
  MarshalGroup : Group → Option Bytes
  UnmarshalGroup : Bytes → Option Group

/-- The file name `fmt.Sprintf("%s.dat", key)`. -/
def datName (key : String) : String := key ++ ".dat"

/-- The step "Strip the extensions off the files" shared by the two Discover
functions: `strings.Replace(filepath.Base(g), ".dat", "", 1)` for each match. -/
def stripExtensions (globs : List Path) : List String :=
  globs.map fun g => String.mk (removeFirst ".dat".toList (Base g).toList)

/-- `ProtoDB.DiscoverEntityIDs`. -/
def ProtoDB.DiscoverEntityIDs (pdb : ProtoDB) (fs : FS) : Except Error (List String) :=
  match Glob fs (Join [pdb.dataRoot, entitySubdir, "*.dat"]) with
  | .error _ => .error .ErrInternalError
  | .ok globs => .ok (stripExtensions globs)

/-- `ProtoDB.LoadEntity`. -/
def ProtoDB.LoadEntity (pdb : ProtoDB) (pc : Proto) (fs : FS) (ID : String) :
    Except Error Entity :=
  match ReadFile fs (Join [pdb.dataRoot, entitySubdir, datName ID]) with
  | .error err =>
    if IsNotExist err then .error .ErrUnknownEntity else .error .ErrInternalError
  | .ok bytes =>
    match pc.UnmarshalEntity bytes with
    | none => .error .ErrInternalError
    | some e => .ok e

/-- Loop of `LoadEntityNumber` over the discovered IDs. -/
def ProtoDB.loadEntityNumberLoop (pdb : ProtoDB) (pc : Proto) (fs : FS) (number : Int) :
    List String → Except Error Entity
  | [] => .error .ErrUnknownEntity
  | en :: rest =>
    match pdb.LoadEntity pc fs en with
    | .error _ => .error .ErrInternalError
    | .ok e => if e.GetNumber = number then .ok e
               else loadEntityNumberLoop pdb pc fs number rest

/-- `ProtoDB.LoadEntityNumber`. -/
def ProtoDB.LoadEntityNumber (pdb : ProtoDB) (pc : Proto) (fs : FS) (number : Int) :
    Except Error Entity :=
  match pdb.DiscoverEntityIDs fs with
  | .error _ => .error .ErrInternalError
  | .ok l => pdb.loadEntityNumberLoop pc fs number l

/-- `ProtoDB.SaveEntity`: a marshal error is logged only, and the write goes on
with the nil slice; the result is the error returned and the file system
afterwards. -/
def ProtoDB.SaveEntity (pdb : ProtoDB) (pc : Proto) (fs : FS) (e : Entity) :
    Option Error × FS :=
  match WriteFile fs (Join [pdb.dataRoot, entitySubdir, datName e.GetID])
      ((pc.MarshalEntity e).getD []) with
  | .error _ => (some .ErrInternalError, fs)
  | .ok fs2 => (none, fs2)

/-- `ProtoDB.DeleteEntity`: the error of `os.Remove` is returned as it is. -/
def ProtoDB.DeleteEntity (pdb : ProtoDB) (fs : FS) (ID : String) : Option Error × FS :=
  match Remove fs (Join [pdb.dataRoot, entitySubdir, datName ID]) with
  | .error err => (some (.pathError err), fs)
  | .ok fs2 => (none, fs2)

/-- `ProtoDB.DiscoverGroupNames`. -/
def ProtoDB.DiscoverGroupNames (pdb : ProtoDB) (fs : FS) : Except Error (List String) :=
  match Glob fs (Join [pdb.dataRoot, groupSubdir, "*.dat"]) with
  | .error _ => .error .ErrInternalError
  | .ok globs => .ok (stripExtensions globs)

/-- `ProtoDB.LoadGroup`. -/
def ProtoDB.LoadGroup (pdb : ProtoDB) (pc : Proto) (fs : FS) (name : String) :
    Except Error Group :=
  match ReadFile fs (Join [pdb.dataRoot, groupSubdir, datName name]) with
  | .error err =>
    if IsNotExist err then .error .ErrUnknownGroup else .error .ErrInternalError
  | .ok bytes =>
    match pc.UnmarshalGroup bytes with
    | none => .error .ErrInternalError
    | some g => .ok g

/-- Loop of `LoadGroupNumber` over the discovered names. -/
def ProtoDB.loadGroupNumberLoop (pdb : ProtoDB) (pc : Proto) (fs : FS) (number : Int) :
    List String → Except Error Group
  | [] => .error .ErrUnknownGroup
  | gn :: rest =>
    match pdb.LoadGroup pc fs gn with
    | .error _ => .error .ErrInternalError
    | .ok g => if g.GetNumber = number then .ok g
               else loadGroupNumberLoop pdb pc fs number rest

/-- `ProtoDB.LoadGroupNumber`. -/
def ProtoDB.LoadGroupNumber (pdb : ProtoDB) (pc : Proto) (fs : FS) (number : Int) :
    Except Error Group :=
  match pdb.DiscoverGroupNames fs with
  | .error _ => .error .ErrInternalError
  | .ok l => pdb.loadGroupNumberLoop pc fs number l

/-- `ProtoDB.SaveGroup`: as `SaveEntity`. -/
def ProtoDB.SaveGroup (pdb : ProtoDB) (pc : Proto) (fs : FS) (g : Group) :
    Option Error × FS :=
  match WriteFile fs (Join [pdb.dataRoot, groupSubdir, datName g.GetName])
      ((pc.MarshalGroup g).getD []) with
  | .error _ => (some .ErrInternalError, fs)
  | .ok fs2 => (none, fs2)

/-- `ProtoDB.DeleteGroup`: only a not-exist error of `os.Remove` is reported;
after any other outcome the function returns nil. -/
def ProtoDB.DeleteGroup (pdb : ProtoDB) (fs : FS) (name : String) : Option Error × FS :=
  match Remove fs (Join [pdb.dataRoot, groupSubdir, datName name]) with
  | .error err => if IsNotExist err then (some .ErrUnknownGroup, fs) else (none, fs)
  | .ok fs2 => (none, fs2)

/-- The file system as `ensureDataDirectory` leaves it when it had to create
everything: the data root and its two subdirectories, writable and empty. -/
def ProtoDB.emptyStore (pdb : ProtoDB) : FS :=
  { dirs := [(Join [pdb.dataRoot], true), (Join [pdb.dataRoot, entitySubdir], true),
             (Join [pdb.dataRoot, groupSubdir], true)],
    files := [] }

/-- The store with the default data root "./data". -/
def defaultDB : ProtoDB := { dataRoot := "./data" }

/-- An example encoding of an optional string: 0, or 1, the length and the
code points. -/
def encStr : Option String → Bytes
  | none => [0]
  | some s => 1 :: s.length :: s.toList.map Char.toNat

/-- An example encoding of an optional number: 0, or 1, the sign and the
absolute value. -/
def encInt : Option Int → Bytes
  | none => [0]
  | some i => [1, if i < 0 then 1 else 0, i.natAbs]

/-- Decoder for `encStr`: the value and the bytes left. -/
def decStr : Bytes → Option (Option String × Bytes)
  | 0 :: rest => some (none, rest)
  | 1 :: n :: rest =>
    if n ≤ rest.length then some (some (String.mk ((rest.take n).map Char.ofNat)), rest.drop n)
    else none
  | _ => none

/-- Decoder for `encInt`: the value and the bytes left. -/
def decInt : Bytes → Option (Option Int × Bytes)
  | 0 :: rest => some (none, rest)
  | 1 :: sign :: n :: rest => some (some (if sign = 1 then -(n : Int) else (n : Int)), rest)
  | _ => none

/-- An example of the marshalling functions, in which marshalling never fails
and, as in the protocol's wire format, no bytes at all decode to the empty
record. -/
def exampleProto : Proto where
  MarshalEntity := fun e => some (encStr e.ID ++ encInt e.Number ++ encStr e.Secret)
  UnmarshalEntity := fun b =>
    if b = [] then some {} else
      (decStr b).bind fun r1 => (decInt r1.2).bind fun r2 => (decStr r2.2).bind fun r3 =>
        if r3.2 = [] then some { ID := r1.1, Number := r2.1, Secret := r3.1 } else none
  MarshalGroup := fun g => some (encStr g.Name ++ encInt g.Number ++ encStr g.ManagedBy)
  UnmarshalGroup := fun b =>
    if b = [] then some {} else
      (decStr b).bind fun r1 => (decInt r1.2).bind fun r2 => (decStr r2.2).bind fun r3 =>
        if r3.2 = [] then some { Name := r1.1, Number := r2.1, ManagedBy := r3.1 } else none

/-- A store whose groups directory the server may not change (no write
permission on it) and which holds the group file "foo.dat" with contents `old`,
itself writable. -/
def lockedGroupsStore (old : Bytes) : FS :=
  { dirs := [(Join ["./data"], true), (Join ["./data", entitySubdir], true),
             (Join ["./data", groupSubdir], false)],
    files := [(Join ["./data", groupSubdir, "foo.dat"], { data := old })] }

/-! ## Hooks (`internal/tree/hooks`) -/

/-- Modelled from the spec: the Storage Contract as the hooks consume it, the
two loads by key of a store in state `σ`; a load does not change the store. -/
structure DB (σ : Type) where
  LoadEntity : σ → String → Except Error Entity
  LoadGroup : σ → String → Except Error Group

/-- The flat-file store as a Storage Contract. -/
def ProtoDB.asDB (pdb : ProtoDB) (pc : Proto) : DB FS where
  LoadEntity := pdb.LoadEntity pc
  LoadGroup := pdb.LoadGroup pc

/-- Modelled from the spec: the hook SetManagingGroup (its source is not among
the files, only its test). "Empty string clears the field with no error; a
value equal to the record's own name sets self-reference with no error; any
other non-empty value must resolve to an existing Group via the Storage
Contract or the hook fails with a not-found error and leaves the field
unchanged; otherwise the field is set to the validated value." The record's
own name is the name in the delta `dg`, as in the test; a failed lookup returns
the store's error. The result is the error and the working group afterwards. -/
def SetManagingGroup.Run {σ : Type} (db : DB σ) (s : σ) (g dg : Group) :
    Option Error × Group :=
  if dg.GetManagedBy = "" then (none, { g with ManagedBy := dg.ManagedBy })
  else if dg.GetManagedBy = dg.GetName then (none, { g with ManagedBy := dg.ManagedBy })
  else
    match db.LoadGroup s dg.GetManagedBy with
    | .error err => (some err, g)
    | .ok _ => (none, { g with ManagedBy := dg.ManagedBy })

/-- Modelled from the spec: the hook FailOnExistingEntity (its source is not
among the files, only its test). It "fails with a duplicate-ID error if the
target ID is already present in storage; succeeds (no mutation) otherwise".
The result is the error, the working entity and the store afterwards. -/
def FailOnExistingEntity.Run {σ : Type} (db : DB σ) (s : σ) (e de : Entity) :
    Option Error × Entity × σ :=
  match db.LoadEntity s de.GetID with
  | .ok _ => (some .ErrDuplicateEntityID, e, s)
  | .error _ => (none, e, s)

/-- The store of the hook tests: the empty store after saving group "bar" and
entity "foo" with number 42. -/
def hookTestStore : FS :=
  (defaultDB.SaveEntity exampleProto
    (defaultDB.SaveGroup exampleProto defaultDB.emptyStore { Name := some "bar" }).2
    { ID := some "foo", Number := some 42 }).2

/-! ## Plugin manager (`manager.go`) -/

/-- Modelled from the spec: `common.PluginOpts`, which "carries the action name
and the current working Entity/Group"; the two records are pointers. -/
structure PluginOpts where
  Action : String := ""
  Entity : Option Entity := none
  Group : Option Group := none
deriving DecidableEq, Repr

/-- Modelled from the spec: `common.PluginResult`, the Entity and Group a plugin
hands back (held by value: the code takes `&res.Entity`). -/
structure PluginResult where
  Entity : Entity := {}
  Group : Group := {}
deriving DecidableEq, Repr

/-- Modelled from the spec: `consumer.Ref`, the handle to one plugin process
with the capability set Init, ProcessEntity, ProcessGroup. A call's reply is a
function of the options sent; a reply with a non-nil error is `Except.error`. -/
structure Ref where
  Init : Option Error
  ProcessEntity : PluginOpts → Except Error PluginResult
  ProcessGroup : PluginOpts → Except Error PluginResult

/-- Go map `map[string]consumer.Ref`: `none` is the nil map, `some kvs` an
allocated map holding the entries `kvs` (one per key). -/
abbrev PluginTable := Option (List (String × Ref))

/-- The struct `Manager` (the logger carries no state of interest). -/
structure Manager where
  plugins : PluginTable

/-- The constructor `New`: a manager with an allocated, empty plugin table. -/
def New : Manager := { plugins := some [] }

/-- Entries of the plugin table; a nil map has none. -/
def Manager.entries (m : Manager) : List (String × Ref) := m.plugins.getD []

/-- Map read `kvs[k]` on the entries of a map. -/
def mapGet : List (String × Ref) → String → Option Ref
  | [], _ => none
  | (k2, v) :: rest, k => if k2 = k then some v else mapGet rest k

/-- Map write `kvs[k] = v` on the entries of a map: the entry for `k` is
replaced when there is one and added otherwise. -/
def mapSet : List (String × Ref) → String → Ref → List (String × Ref)
  | [], k, v => [(k, v)]
  | (k2, v2) :: rest, k, v =>
    if k2 = k then (k, v) :: rest else (k2, v2) :: mapSet rest k v

/-- Loop of `LoadPlugins` over the configured list `plugin.list`; `connect` is
`consumer.New`. A failed connection or a failed Init skips the plugin
(`continue`); the map write panics on a nil map, which is the result `none`. -/
def loadLoop (connect : String → Except Error Ref) :
    List String → PluginTable → Option PluginTable
  | [], t => some t
  | p :: ps, t =>
    match connect p with
    | .error _ => loadLoop connect ps t
    | .ok im =>
      match im.Init with
      | some _ => loadLoop connect ps t
      | none =>
        match t with
        | none => none
        | some kvs => loadLoop connect ps (some (mapSet kvs p im))

/-- `Manager.LoadPlugins`; `loadstatic` and `list` are the configuration values
`plugin.loadstatic` and `plugin.list`. The result is the manager afterwards,
or `none` when the call panics. -/
def LoadPlugins (loadstatic : Bool) (list : List String)
    (connect : String → Except Error Ref) (m : Manager) : Option Manager :=
  if loadstatic then
    (loadLoop connect list m.plugins).map fun t => { plugins := t }
  else
    some m

/-- The plugin `consumer.New` and `Init` yield for the identifier `k`, when
both steps succeed. -/
def loads (connect : String → Except Error Ref) (k : String) : Option Ref :=
  match connect k with
  | .error _ => none
  | .ok im => if im.Init.isNone then some im else none

/-- The spec's plugin table after loading the configured `list` into the
entries `kvs`: a configured identifier whose connection and Init both succeed
maps to its plugin; every other key is as before. -/
def tableAfter (connect : String → Except Error Ref) (list : List String)
    (kvs : List (String × Ref)) (k : String) : Option Ref :=
  if k ∈ list then
    match loads connect k with
    | some im => some im
    | none => mapGet kvs k
  else mapGet kvs k

/-- A sequence `order` is one that `for p, r := range m.plugins` may yield:
every entry exactly once, in an order the language leaves open. -/
def RangeYields (m : Manager) (order : List (String × Ref)) : Prop :=
  order.Perm m.entries

/-- What one run of an Invoke function produces: the two return values and the
plugin calls made, in the order made (plugin name and options sent). -/
structure Invocation where
  res : PluginResult
  err : Option Error
  calls : List (String × PluginOpts)
deriving DecidableEq, Repr

/-- Loop body of `InvokeEntityProcessing` over the entries still to be
yielded by `range`, with the current `opts`, `res` and the calls made so far. -/
def entityLoop : List (String × Ref) → PluginOpts → PluginResult →
    List (String × PluginOpts) → Invocation
  | [], _, res, log => { res := res, err := none, calls := log }
  | (p, r) :: rest, opts, _, log =>
    match r.ProcessEntity opts with
    | .error err => { res := {}, err := some err, calls := log ++ [(p, opts)] }
    | .ok res => entityLoop rest { opts with Entity := some res.Entity } res (log ++ [(p, opts)])

/-- `Manager.InvokeEntityProcessing`, given the sequence `order` in which the
`range` over the plugin map yields its entries. -/
def InvokeEntityProcessing (order : List (String × Ref)) (opts : PluginOpts) : Invocation :=
  entityLoop order opts {} []

/-- Loop body of `InvokeGroupProcessing`. -/
def groupLoop : List (String × Ref) → PluginOpts → PluginResult →
    List (String × PluginOpts) → Invocation
  | [], _, res, log => { res := res, err := none, calls := log }
  | (p, r) :: rest, opts, _, log =>
    match r.ProcessGroup opts with
    | .error err => { res := {}, err := some err, calls := log ++ [(p, opts)] }
    | .ok res => groupLoop rest { opts with Group := some res.Group } res (log ++ [(p, opts)])

/-- `Manager.InvokeGroupProcessing`, given the sequence `order` in which the
`range` over the plugin map yields its entries. -/
def InvokeGroupProcessing (order : List (String × Ref)) (opts : PluginOpts) : Invocation :=
  groupLoop order opts {} []

/-- Options `opts` with only the Entity replaced by the Entity of `res`. -/
def feedEntity (opts : PluginOpts) (res : PluginResult) : PluginOpts :=
  { opts with Entity := some res.Entity }

/-- Options `opts` with only the Group replaced by the Group of `res`. -/
def feedGroup (opts : PluginOpts) (res : PluginResult) : PluginOpts :=
  { opts with Group := some res.Group }

/-- The spec's pipeline, entity side: the options each plugin receives when the
results so far are `rs`. The first receives `opts` unchanged, the next ones
`opts` with only the Entity replaced by the Entity of the previous result. -/
def entityInputs (opts : PluginOpts) (rs : List PluginResult) : List PluginOpts :=
  opts :: rs.map (feedEntity opts)

/-- The spec's pipeline, group side. -/
def groupInputs (opts : PluginOpts) (rs : List PluginResult) : List PluginOpts :=
  opts :: rs.map (feedGroup opts)

/-- The plugins `ps` answer the inputs `ins` with the results `rs`, all of them
without error (`ins` may be one longer than `ps`). -/
def EntityAnswers (ps : List (String × Ref)) (ins : List PluginOpts)
    (rs : List PluginResult) : Prop :=
  List.Forall₂ (fun (p : String × Ref) (io : PluginOpts × PluginResult) =>
    p.2.ProcessEntity io.1 = .ok io.2) ps (ins.zip rs)

/-- Group side of `EntityAnswers`. -/
def GroupAnswers (ps : List (String × Ref)) (ins : List PluginOpts)
    (rs : List PluginResult) : Prop :=
  List.Forall₂ (fun (p : String × Ref) (io : PluginOpts × PluginResult) =>
    p.2.ProcessGroup io.1 = .ok io.2) ps (ins.zip rs)

/-- One step of the spec's left fold: once an error has occurred it stays; else
the plugin is called on the current options and its result is put into the
original options `o` by `feed`. -/
def pipeStep (proc : Ref → PluginOpts → Except Error PluginResult)
    (feed : PluginOpts → PluginResult → PluginOpts) (o : PluginOpts)
    (acc : Except Error (PluginOpts × PluginResult)) (p : String × Ref) :
    Except Error (PluginOpts × PluginResult) :=
  acc.bind fun st => (proc p.2 st.1).map fun r => (feed o r, r)

/-- The spec's left fold, entity side: thread the options through the plugins,
stopping at the first error; the state is the options for the next plugin and
the last result. -/
def entityFold (opts : PluginOpts) (ps : List (String × Ref)) :
    Except Error (PluginOpts × PluginResult) :=
  ps.foldl (pipeStep (fun r => r.ProcessEntity) feedEntity opts) (.ok (opts, {}))

/-- The spec's left fold, group side. -/
def groupFold (opts : PluginOpts) (ps : List (String × Ref)) :
    Except Error (PluginOpts × PluginResult) :=
  ps.foldl (pipeStep (fun r => r.ProcessGroup) feedGroup opts) (.ok (opts, {}))

/-- The pair of return values a fold state stands for: the last result and a nil
error, or the empty result and the error. -/
def foldOutcome : Except Error (PluginOpts × PluginResult) → PluginResult × Option Error
  | .ok st => (st.2, none)
  | .error e => ({}, some e)

/-- The shape shared by the two Invoke loops: `proc` is the plugin call made
and `feed` the assignment that puts the result back into the options. Used
only to state facts about both loops at once. -/
def pipeLoop (proc : Ref → PluginOpts → Except Error PluginResult)
    (feed : PluginOpts → PluginResult → PluginOpts) :
    List (String × Ref) → PluginOpts → PluginResult → List (String × PluginOpts) → Invocation
  | [], _, res, log => { res := res, err := none, calls := log }
  | (p, r) :: rest, opts, _, log =>
    match proc r opts with
    | .error err => { res := {}, err := some err, calls := log ++ [(p, opts)] }
    | .ok res => pipeLoop proc feed rest (feed opts res) res (log ++ [(p, opts)])

/-- An example plugin that appends `tag` to the ID of the entity, and to the
name of the group, it is sent. -/
def tagPlugin (tag : String) : Ref where
  Init := none
  ProcessEntity := fun o => .ok { Entity := { ID := some ((o.Entity.getD {}).GetID ++ tag) } }
  ProcessGroup := fun o => .ok { Group := { Name := some ((o.Group.getD {}).GetName ++ tag) } }

/-- An example plugin whose two Process calls always fail with `msg`. -/
def failingPlugin (msg : String) : Ref where
  Init := none
  ProcessEntity := fun _ => .error (.pluginError msg)
  ProcessGroup := fun _ => .error (.pluginError msg)

/-- An example manager with the two plugins "a" and "b" loaded. -/
def twoPluginManager : Manager :=
  { plugins := some [("a", tagPlugin "a"), ("b", tagPlugin "b")] }

/-- An example `consumer.New`: "good" connects and initialises, "noinit"
connects but fails Init, every other identifier fails to connect. -/
def exampleConnect (p : String) : Except Error Ref :=
  if p = "good" then .ok (tagPlugin "g")
  else if p = "noinit" then .ok { tagPlugin "n" with Init := some (.pluginError "init") }
  else .error (.pluginError "no such plugin")

/-! ## Server startup (`cmd/netauthd/main.go`) -/

/-- Go `strings.Contains(s, ":")`. -/
def containsColon (s : String) : Bool := s.toList.contains ':'

/-- What the process finds at startup: the flag values and whether each step
that can end the process succeeds. -/
structure StartupEnv where
  writeDefConfig : String
  writeConfigOk : Bool
  readConfigOk : Bool
  listenOk : Bool
  insecure : Bool
  tlsOk : Bool
  dbOk : Bool
  cryptoOk : Bool
  treeOk : Bool
  tokenOk : Bool
  bootstrap : String

/-- Steps of `main` that are observed, in the order made. `Fatal` is `log.Fatal`
(the process ends), `Exit` is `os.Exit(0)`, `Panic` an index out of range. -/
inductive Event
  | Fatal (msg : String)
  | Exit
  | Panic
  | Bootstrap (id secret : String)
  | DisableBootstrap
  | Serve
deriving DecidableEq, Repr

/-- The function `loadConfig`: `none` when it returns, else how the process
ends. -/
def loadConfig (env : StartupEnv) : Option Event :=
  if env.writeDefConfig ≠ "" then
    if env.writeConfigOk then some .Exit else some (.Fatal "write config")
  else if env.readConfigOk then none
  else some (.Fatal "Fatal error reading configuration")

/-- The function `newServer`: `none` when it returns the server, else the fatal
error that ends the process. -/
def newServer (env : StartupEnv) : Option Event :=
  if !env.dbOk then some (.Fatal "Fatal database error!")
  else if !env.cryptoOk then some (.Fatal "Fatal crypto error!")
  else if !env.treeOk then some (.Fatal "Fatal tree error!")
  else if !env.tokenOk then some (.Fatal "Fatal error initializing token service")
  else none

/-- The block "Attempt to bootstrap a superuser" and what follows it in `main`:
the bootstrap call when a string was given, then DisableBootstrap, then
serving. -/
def bootstrapAndServe (bootstrap : String) : List Event :=
  if bootstrap.length ≠ 0 then
    if !containsColon bootstrap then
      [.Fatal "Bootstrap string must be of the form <entity>:<secret>"]
    else
      match splitOnChar ':' bootstrap.toList with
      | e0 :: e1 :: _ => [.Bootstrap (String.mk e0) (String.mk e1), .DisableBootstrap, .Serve]
      | _ => [.Panic]
  else
    [.DisableBootstrap, .Serve]

/-- The function `main`: the observed steps from start to serving or to the end
of the process. -/
def main (env : StartupEnv) : List Event :=
  match loadConfig env with
  | some ev => [ev]
  | none =>
    if !env.listenOk then [.Fatal "Could not bind!"]
    else if !env.insecure && !env.tlsOk then [.Fatal "TLS credentials could not be loaded!"]
    else
      match newServer env with
      | some ev => [ev]
      | none => bootstrapAndServe env.bootstrap

/-- An example startup in which every step succeeds, with the given bootstrap
string. -/
def goodEnv (bootstrap : String) : StartupEnv :=
  { writeDefConfig := "", writeConfigOk := true, readConfigOk := true, listenOk := true,
    insecure := false, tlsOk := true, dbOk := true, cryptoOk := true, treeOk := true,
    tokenOk := true, bootstrap := bootstrap }

/-! ## Hook registration (`manager.go`) -/

/-- Modelled from the spec: `common.PluginAction`, the name of a lifecycle
action; `string(action)` is the name itself. -/
abbrev PluginAction := String

/-- Modelled from the spec: `tree.RefContext`, the handle that bundles the
Storage Contract for hook constructors (the hook tests build it from a DB). -/
structure RefContext (σ : Type) where
  DB : DB σ

/-- The struct literal `EntityHook{action: action, mref: m}`: the hook of the
plugin manager for entities; `μ` is the type of the manager reference. -/
structure EntityHook (μ : Type) where
  action : PluginAction
  mref : μ

/-- The struct literal `GroupHook{action: action, mref: m}`. -/
structure GroupHook (μ : Type) where
  action : PluginAction
  mref : μ

/-- `Manager.RegisterEntityHooks` on the manager reference `m`, with the list
`common.AutoEntityActions` as a parameter: the calls made to
`tree.RegisterEntityHookConstructor`, in order, each with the name
`string(action)` and the constructor `hc` built in that iteration from
`action := common.AutoEntityActions[i]`. -/
def RegisterEntityHooks {μ σ : Type} (m : μ) (AutoEntityActions : List PluginAction) :
    List (String × (RefContext σ → Except Error (EntityHook μ))) :=
  List.ofFn fun (i : Fin AutoEntityActions.length) =>
    let action := AutoEntityActions.get i
    (action, fun _ => .ok { action := action, mref := m })

/-- `Manager.RegisterGroupHooks`, with `common.AutoGroupActions` as a
parameter: the calls made to `tree.RegisterGroupHookConstructor`. -/
def RegisterGroupHooks {μ σ : Type} (m : μ) (AutoGroupActions : List PluginAction) :
    List (String × (RefContext σ → Except Error (GroupHook μ))) :=
  List.ofFn fun (i : Fin AutoGroupActions.length) =>
    let action := AutoGroupActions.get i
    (action, fun _ => .ok { action := action, mref := m })

/-- Modelled from the spec: running the manager's entity hook, whose `Run` is
not among the files. The hook "delegates to the manager's pipeline rather than
doing local work" and "surfaces the same error": the result is the error of
InvokeEntityProcessing on options that carry the hook's action and the working
entity. `order` is the order in which ranging over the plugin map of the
manager `h.mref` yields its entries. -/
def EntityHook.Run (h : EntityHook Manager) (order : List (String × Ref))
    (e : Entity) : Option Error :=
  (InvokeEntityProcessing order { Action := h.action, Entity := some e }).err

/-- Modelled from the spec: running the manager's group hook, as
`EntityHook.Run`. -/
def GroupHook.Run (h : GroupHook Manager) (order : List (String × Ref))
    (g : Group) : Option Error :=
  (InvokeGroupProcessing order { Action := h.action, Group := some g }).err

/-- An example of the marshalling functions in which a record without its key
(ID, resp. Name) cannot be marshalled, as a message with a required field
unset or a nil message cannot; all else is as in `exampleProto`. -/
def strictProto : Proto where
  MarshalEntity := fun e => if e.ID.isSome then exampleProto.MarshalEntity e else none
  UnmarshalEntity := exampleProto.UnmarshalEntity
  MarshalGroup := fun g => if g.Name.isSome then exampleProto.MarshalGroup g else none
  UnmarshalGroup := exampleProto.UnmarshalGroup

/-! ## Properties of the plugin pipeline -/

theorem entityLoop_eq_pipeLoop (ps : List (String × Ref)) (opts : PluginOpts)
    (res : PluginResult) (log : List (String × PluginOpts)) :
    entityLoop ps opts res log = pipeLoop (fun r => r.ProcessEntity) feedEntity ps opts res log := by
  induction ps generalizing opts res log with
  | nil => rfl
  | cons p ps ih =>
    obtain ⟨name, r⟩ := p
    simp only [entityLoop, pipeLoop]
    cases r.ProcessEntity opts with
    | error e => rfl
    | ok v => exact ih _ _ _

theorem groupLoop_eq_pipeLoop (ps : List (String × Ref)) (opts : PluginOpts)
    (res : PluginResult) (log : List (String × PluginOpts)) :
    groupLoop ps opts res log = pipeLoop (fun r => r.ProcessGroup) feedGroup ps opts res log := by
  induction ps generalizing opts res log with
  | nil => rfl
  | cons p ps ih =>
    obtain ⟨name, r⟩ := p
    simp only [groupLoop, pipeLoop]
    cases r.ProcessGroup opts with
    | error e => rfl
    | ok v => exact ih _ _ _

/-- A loop run over a prefix of plugins that all answer without error: the
loop continues on the rest with the last input and the last result. -/
theorem pipeLoop_append (proc : Ref → PluginOpts → Except Error PluginResult)
    (feed : PluginOpts → PluginResult → PluginOpts) (o : PluginOpts)
    (hfeed : ∀ a r r2, feed (feed a r) r2 = feed a r2) :
    ∀ (pre : List (String × Ref)) (rs : List PluginResult) (rest : List (String × Ref))
      (cur : PluginOpts) (res : PluginResult) (log : List (String × PluginOpts)),
      (∀ r, feed cur r = feed o r) →
      List.Forall₂ (fun (p : String × Ref) (io : PluginOpts × PluginResult) =>
        proc p.2 io.1 = .ok io.2) pre ((cur :: rs.map (feed o)).zip rs) →
      pipeLoop proc feed (pre ++ rest) cur res log =
        pipeLoop proc feed rest ((rs.map (feed o)).getLastD cur) (rs.getLastD res)
          (log ++ (pre.map Prod.fst).zip (cur :: rs.map (feed o))) := by
  intro pre
  induction pre with
  | nil =>
    intro rs rest cur res log _ h
    cases rs with
    | nil => simp
    | cons r rs => simp at h
  | cons p pre ih =>
    intro rs rest cur res log hcur h
    cases rs with
    | nil => simp at h
    | cons r rs =>
      obtain ⟨name, ref⟩ := p
      simp only [List.map_cons, List.zip_cons_cons, List.forall₂_cons] at h
      obtain ⟨h1, h2⟩ := h
      have hstep : pipeLoop proc feed ((name, ref) :: pre ++ rest) cur res log =
          pipeLoop proc feed (pre ++ rest) (feed cur r) r (log ++ [(name, cur)]) := by
        simp only [List.cons_append, pipeLoop, h1]
        rfl
      rw [hstep, hcur r]
      have hcur2 : ∀ r2, feed (feed o r) r2 = feed o r2 := fun r2 => hfeed o r r2
      rw [ih rs rest (feed o r) r (log ++ [(name, cur)]) hcur2 h2]
      simp only [List.map_cons, List.getLastD_cons, List.append_assoc, List.zip_cons_cons,
        List.singleton_append]

theorem pipeStep_error (proc : Ref → PluginOpts → Except Error PluginResult)
    (feed : PluginOpts → PluginResult → PluginOpts) (o : PluginOpts) (e : Error)
    (qs : List (String × Ref)) :
    qs.foldl (pipeStep proc feed o) (.error e) = .error e := by
  induction qs with
  | nil => rfl
  | cons q qs ihq => simpa [List.foldl_cons, pipeStep, Except.bind] using ihq

/-- The two results of a loop run agree with the spec's left fold. -/
theorem pipeLoop_fold (proc : Ref → PluginOpts → Except Error PluginResult)
    (feed : PluginOpts → PluginResult → PluginOpts) (o : PluginOpts)
    (hfeed : ∀ a r r2, feed (feed a r) r2 = feed a r2) :
    ∀ (ps : List (String × Ref)) (cur : PluginOpts) (res : PluginResult)
      (log : List (String × PluginOpts)),
      (∀ r, feed cur r = feed o r) →
      ((pipeLoop proc feed ps cur res log).res, (pipeLoop proc feed ps cur res log).err) =
        foldOutcome (ps.foldl (pipeStep proc feed o) (.ok (cur, res))) := by
  intro ps
  induction ps with
  | nil => intro cur res log _; rfl
  | cons p ps ih =>
    intro cur res log hcur
    obtain ⟨name, ref⟩ := p
    simp only [pipeLoop, List.foldl_cons]
    cases hp : proc ref cur with
    | error e =>
      have hf : pipeStep proc feed o (.ok (cur, res)) (name, ref) = .error e := by
        simp [pipeStep, Except.bind, Except.map, hp]
      rw [hf, pipeStep_error]
      rfl
    | ok v =>
      have hf : pipeStep proc feed o (.ok (cur, res)) (name, ref) = .ok (feed o v, v) := by
        simp [pipeStep, Except.bind, Except.map, hp]
      rw [hf]
      simp only [hcur v]
      exact ih (feed o v) v _ (fun r2 => hfeed o v r2)

theorem feedEntity_idem (a : PluginOpts) (r r2 : PluginResult) :
    feedEntity (feedEntity a r) r2 = feedEntity a r2 := rfl

theorem feedGroup_idem (a : PluginOpts) (r r2 : PluginResult) :
    feedGroup (feedGroup a r) r2 = feedGroup a r2 := rfl

/-- Names of the calls made: zipping names with at least as many inputs. -/
theorem map_fst_zip_inputs (names : List String) (ins : List PluginOpts)
    (h : names.length ≤ ins.length) : (names.zip ins).map Prod.fst = names := by
  induction names generalizing ins with
  | nil => rfl
  | cons n names ih =>
    cases ins with
    | nil => simp at h
    | cons i ins => simp [ih ins (by simpa using h)]

theorem answers_length {proc : Ref → PluginOpts → Except Error PluginResult}
    {ps : List (String × Ref)} {ins : List PluginOpts} {rs : List PluginResult}
    (h : List.Forall₂ (fun (p : String × Ref) (io : PluginOpts × PluginResult) =>
      proc p.2 io.1 = .ok io.2) ps (ins.zip rs)) : ps.length ≤ rs.length := by
  have := h.length_eq
  simp only [List.length_zip] at this
  omega

theorem zip_append_singleton {α β : Type} (a : List α) (x : α) (l : List β) (d : β)
    (h : l.length = a.length + 1) :
    (a ++ [x]).zip l = a.zip l ++ [(x, l.getLastD d)] := by
  induction a generalizing l d with
  | nil =>
    match l, h with
    | [b], _ => rfl
  | cons y a ih =>
    match l, h with
    | b :: l2, h =>
      have h2 : l2.length = a.length + 1 := by simpa using h
      simp only [List.cons_append, List.zip_cons_cons, List.getLastD_cons, ih l2 b h2]

/-- Both loops: when the plugins `pre` answer the spec's inputs with `rs` and
the next plugin `p` fails with `e` on the input it is then due, the run
returns `e` with the empty result after calling exactly `pre` and `p`. -/
theorem pipeLoop_first_error (proc : Ref → PluginOpts → Except Error PluginResult)
    (feed : PluginOpts → PluginResult → PluginOpts)
    (hfeed : ∀ a r r2, feed (feed a r) r2 = feed a r2)
    (pre : List (String × Ref)) (p : String × Ref) (post : List (String × Ref))
    (opts : PluginOpts) (rs : List PluginResult) (e : Error)
    (hpre : List.Forall₂ (fun (p : String × Ref) (io : PluginOpts × PluginResult) =>
      proc p.2 io.1 = .ok io.2) pre ((opts :: rs.map (feed opts)).zip rs))
    (hp : proc p.2 ((rs.map (feed opts)).getLastD opts) = .error e) :
    pipeLoop proc feed (pre ++ p :: post) opts {} [] =
      { res := {}, err := some e,
        calls := ((pre ++ [p]).map Prod.fst).zip (opts :: rs.map (feed opts)) } := by
  rw [pipeLoop_append proc feed opts hfeed pre rs (p :: post) opts {} [] (fun _ => rfl) hpre]
  obtain ⟨name, ref⟩ := p
  simp only [pipeLoop, hp, List.nil_append, List.map_append, List.map_cons, List.map_nil]
  have hlen : (pre.map Prod.fst).length = rs.length := by
    have h1 := hpre.length_eq
    simp only [List.length_zip, List.length_cons, List.length_map] at h1
    simp only [List.length_map]
    omega
  rw [zip_append_singleton (pre.map Prod.fst) name (opts :: rs.map (feed opts)) opts
    (by simp only [List.length_cons, List.length_map] at hlen ⊢; omega)]
  simp only [List.getLastD_cons]

/-- Both loops, all plugins succeeding: the run returns the last result with a
nil error after calling every plugin once on the spec's inputs. -/
theorem pipeLoop_all_ok (proc : Ref → PluginOpts → Except Error PluginResult)
    (feed : PluginOpts → PluginResult → PluginOpts)
    (hfeed : ∀ a r r2, feed (feed a r) r2 = feed a r2)
    (ps : List (String × Ref)) (opts : PluginOpts) (rs : List PluginResult)
    (hps : List.Forall₂ (fun (p : String × Ref) (io : PluginOpts × PluginResult) =>
      proc p.2 io.1 = .ok io.2) ps ((opts :: rs.map (feed opts)).zip rs)) :
    pipeLoop proc feed ps opts {} [] =
      { res := rs.getLastD {}, err := none,
        calls := (ps.map Prod.fst).zip (opts :: rs.map (feed opts)) } := by
  have h := pipeLoop_append proc feed opts hfeed ps rs [] opts {} [] (fun _ => rfl) hps
  simp only [List.append_nil, List.nil_append] at h
  rw [h]
  rfl

/-- C1. In every sequence of loaded plugins, in the order they are called: when
the plugins `pre` before the k-th all succeed on the inputs the pipeline gives
them and the k-th plugin `p` returns the error `e`, InvokeEntityProcessing
(resp. InvokeGroupProcessing) returns exactly `e` with the empty PluginResult,
and the calls made are exactly one call to each plugin of `pre`, in order,
followed by the call to `p`: no plugin of `post` is invoked. -/
theorem invoke_first_error_aborts (pre : List (String × Ref)) (p : String × Ref)
    (post : List (String × Ref)) (opts : PluginOpts) (rs : List PluginResult) (e : Error) :
    (EntityAnswers pre (entityInputs opts rs) rs →
      p.2.ProcessEntity ((entityInputs opts rs).getLastD opts) = .error e →
      InvokeEntityProcessing (pre ++ p :: post) opts =
          { res := {}, err := some e,
            calls := ((pre ++ [p]).map Prod.fst).zip (entityInputs opts rs) } ∧
        (InvokeEntityProcessing (pre ++ p :: post) opts).calls.map Prod.fst =
          pre.map Prod.fst ++ [p.1]) ∧
    (GroupAnswers pre (groupInputs opts rs) rs →
      p.2.ProcessGroup ((groupInputs opts rs).getLastD opts) = .error e →
      InvokeGroupProcessing (pre ++ p :: post) opts =
          { res := {}, err := some e,
            calls := ((pre ++ [p]).map Prod.fst).zip (groupInputs opts rs) } ∧
        (InvokeGroupProcessing (pre ++ p :: post) opts).calls.map Prod.fst =
          pre.map Prod.fst ++ [p.1]) := by
  constructor
  · intro hpre hp
    have hlen := answers_length hpre
    have key : InvokeEntityProcessing (pre ++ p :: post) opts =
        { res := {}, err := some e,
          calls := ((pre ++ [p]).map Prod.fst).zip (entityInputs opts rs) } := by
      unfold InvokeEntityProcessing
      rw [entityLoop_eq_pipeLoop]
      exact pipeLoop_first_error (fun r => r.ProcessEntity) feedEntity feedEntity_idem
        pre p post opts rs e hpre (by rw [entityInputs, List.getLastD_cons] at hp; exact hp)
    refine ⟨key, ?_⟩
    rw [key]
    simp only
    rw [map_fst_zip_inputs _ _ (by simp [entityInputs]; omega)]
    simp
  · intro hpre hp
    have hlen := answers_length hpre
    have key : InvokeGroupProcessing (pre ++ p :: post) opts =
        { res := {}, err := some e,
          calls := ((pre ++ [p]).map Prod.fst).zip (groupInputs opts rs) } := by
      unfold InvokeGroupProcessing
      rw [groupLoop_eq_pipeLoop]
      exact pipeLoop_first_error (fun r => r.ProcessGroup) feedGroup feedGroup_idem
        pre p post opts rs e hpre (by rw [groupInputs, List.getLastD_cons] at hp; exact hp)
    refine ⟨key, ?_⟩
    rw [key]
    simp only
    rw [map_fst_zip_inputs _ _ (by simp [groupInputs]; omega)]
    simp

/-- Witness for C1: three plugins of which the second fails; the error of the
second is returned and the third is never called. -/
theorem invoke_first_error_aborts_witness :
    (EntityAnswers [("a", tagPlugin "a")]
        (entityInputs { Action := "EntityCreate" } [{ Entity := { ID := some ("" ++ "a") } }])
        [{ Entity := { ID := some ("" ++ "a") } }] ∧
      (InvokeEntityProcessing
        ([("a", tagPlugin "a")] ++ ("b", failingPlugin "boom") :: [("c", tagPlugin "c")])
        { Action := "EntityCreate" }).calls.map Prod.fst = ["a"] ++ ["b"]) ∧
    (GroupAnswers [("a", tagPlugin "a")]
        (groupInputs { Action := "GroupCreate" } [{ Group := { Name := some ("" ++ "a") } }])
        [{ Group := { Name := some ("" ++ "a") } }] ∧
      (InvokeGroupProcessing
        ([("a", tagPlugin "a")] ++ ("b", failingPlugin "boom") :: [("c", tagPlugin "c")])
        { Action := "GroupCreate" }).calls.map Prod.fst = ["a"] ++ ["b"]) :=
  ⟨⟨List.Forall₂.cons rfl List.Forall₂.nil,
    ((invoke_first_error_aborts [("a", tagPlugin "a")] ("b", failingPlugin "boom")
      [("c", tagPlugin "c")] { Action := "EntityCreate" }
      [{ Entity := { ID := some ("" ++ "a") } }] (.pluginError "boom")).1
      (List.Forall₂.cons rfl List.Forall₂.nil) rfl).2⟩,
   ⟨List.Forall₂.cons rfl List.Forall₂.nil,
    ((invoke_first_error_aborts [("a", tagPlugin "a")] ("b", failingPlugin "boom")
      [("c", tagPlugin "c")] { Action := "GroupCreate" }
      [{ Group := { Name := some ("" ++ "a") } }] (.pluginError "boom")).2
      (List.Forall₂.cons rfl List.Forall₂.nil) rfl).2⟩⟩

/-- C2. For every sequence of loaded plugins that all succeed on the inputs
the pipeline gives them (the first receives `opts` unchanged, each later one
`opts` with only the Entity, resp. Group, replaced by that of the previous
result, so with the action unchanged), InvokeEntityProcessing (resp.
InvokeGroupProcessing) makes exactly these calls and returns the last plugin's
result with a nil error; and in every case the returned pair is the outcome of
the left fold of the plugins over `opts`. -/
theorem invoke_is_left_fold (ps : List (String × Ref)) (opts : PluginOpts)
    (rs : List PluginResult) :
    (EntityAnswers ps (entityInputs opts rs) rs →
      InvokeEntityProcessing ps opts =
        { res := rs.getLastD {}, err := none,
          calls := (ps.map Prod.fst).zip (entityInputs opts rs) }) ∧
    ((InvokeEntityProcessing ps opts).res, (InvokeEntityProcessing ps opts).err) =
      foldOutcome (entityFold opts ps) ∧
    (GroupAnswers ps (groupInputs opts rs) rs →
      InvokeGroupProcessing ps opts =
        { res := rs.getLastD {}, err := none,
          calls := (ps.map Prod.fst).zip (groupInputs opts rs) }) ∧
    ((InvokeGroupProcessing ps opts).res, (InvokeGroupProcessing ps opts).err) =
      foldOutcome (groupFold opts ps) := by
  refine ⟨?_, ?_, ?_, ?_⟩
  · intro h
    unfold InvokeEntityProcessing
    rw [entityLoop_eq_pipeLoop]
    exact pipeLoop_all_ok (fun r => r.ProcessEntity) feedEntity feedEntity_idem ps opts rs h
  · unfold InvokeEntityProcessing entityFold
    rw [entityLoop_eq_pipeLoop]
    exact pipeLoop_fold (fun r => r.ProcessEntity) feedEntity opts feedEntity_idem ps opts {} []
      (fun _ => rfl)
  · intro h
    unfold InvokeGroupProcessing
    rw [groupLoop_eq_pipeLoop]
    exact pipeLoop_all_ok (fun r => r.ProcessGroup) feedGroup feedGroup_idem ps opts rs h
  · unfold InvokeGroupProcessing groupFold
    rw [groupLoop_eq_pipeLoop]
    exact pipeLoop_fold (fun r => r.ProcessGroup) feedGroup opts feedGroup_idem ps opts {} []
      (fun _ => rfl)

/-- Witness for C2: two tagging plugins; the second receives the first one's
entity (resp. group) and its result is returned. -/
theorem invoke_is_left_fold_witness :
    (EntityAnswers [("a", tagPlugin "a"), ("b", tagPlugin "b")]
        (entityInputs { Action := "EntityCreate" }
          [{ Entity := { ID := some "a" } }, { Entity := { ID := some "ab" } }])
        [{ Entity := { ID := some "a" } }, { Entity := { ID := some "ab" } }] ∧
      (InvokeEntityProcessing [("a", tagPlugin "a"), ("b", tagPlugin "b")]
        { Action := "EntityCreate" }).res = { Entity := { ID := some "ab" } }) ∧
    (GroupAnswers [("a", tagPlugin "a"), ("b", tagPlugin "b")]
        (groupInputs { Action := "GroupCreate" }
          [{ Group := { Name := some "a" } }, { Group := { Name := some "ab" } }])
        [{ Group := { Name := some "a" } }, { Group := { Name := some "ab" } }] ∧
      (InvokeGroupProcessing [("a", tagPlugin "a"), ("b", tagPlugin "b")]
        { Action := "GroupCreate" }).res = { Group := { Name := some "ab" } }) :=
  ⟨⟨List.Forall₂.cons rfl (List.Forall₂.cons rfl List.Forall₂.nil),
    congrArg Invocation.res
      ((invoke_is_left_fold [("a", tagPlugin "a"), ("b", tagPlugin "b")]
        { Action := "EntityCreate" }
        [{ Entity := { ID := some "a" } }, { Entity := { ID := some "ab" } }]).1
        (List.Forall₂.cons rfl (List.Forall₂.cons rfl List.Forall₂.nil)))⟩,
   ⟨List.Forall₂.cons rfl (List.Forall₂.cons rfl List.Forall₂.nil),
    congrArg Invocation.res
      ((invoke_is_left_fold [("a", tagPlugin "a"), ("b", tagPlugin "b")]
        { Action := "GroupCreate" }
        [{ Group := { Name := some "a" } }, { Group := { Name := some "ab" } }]).2.2.1
        (List.Forall₂.cons rfl (List.Forall₂.cons rfl List.Forall₂.nil)))⟩⟩

/-- C3, counterexample. The manager with plugins "a" and "b" loaded: ranging
over its plugin map may yield "a" then "b", or "b" then "a"; the two
invocations, on the same plugin set and the same options, return different
results. -/
theorem invoke_order_dependent :
    RangeYields twoPluginManager [("a", tagPlugin "a"), ("b", tagPlugin "b")] ∧
    RangeYields twoPluginManager [("b", tagPlugin "b"), ("a", tagPlugin "a")] ∧
    (InvokeEntityProcessing [("a", tagPlugin "a"), ("b", tagPlugin "b")] {}).res ≠
      (InvokeEntityProcessing [("b", tagPlugin "b"), ("a", tagPlugin "a")] {}).res ∧
    (InvokeGroupProcessing [("a", tagPlugin "a"), ("b", tagPlugin "b")] {}).res ≠
      (InvokeGroupProcessing [("b", tagPlugin "b"), ("a", tagPlugin "a")] {}).res :=
  ⟨List.Perm.refl _, List.Perm.swap _ _ _, by decide, by decide⟩

/-- Both loops call the plugins in the order given: the names in the call log
are those already logged followed by the names of the first `k` plugins, and a
run without error has called them all. -/
theorem pipeLoop_calls_in_order (proc : Ref → PluginOpts → Except Error PluginResult)
    (feed : PluginOpts → PluginResult → PluginOpts) :
    ∀ (ps : List (String × Ref)) (cur : PluginOpts) (res : PluginResult)
      (log : List (String × PluginOpts)),
      ∃ k, k ≤ ps.length ∧
        (pipeLoop proc feed ps cur res log).calls.map Prod.fst =
          log.map Prod.fst ++ (ps.take k).map Prod.fst ∧
        ((pipeLoop proc feed ps cur res log).err = none → k = ps.length) := by
  intro ps
  induction ps with
  | nil => intro cur res log; exact ⟨0, le_refl _, by simp [pipeLoop], fun _ => rfl⟩
  | cons p ps ih =>
    intro cur res log
    obtain ⟨name, ref⟩ := p
    cases hp : proc ref cur with
    | error e =>
      refine ⟨1, by simp, ?_, ?_⟩
      · simp [pipeLoop, hp]
      · simp [pipeLoop, hp]
    | ok v =>
      obtain ⟨k, hk, hcalls, herr⟩ := ih (feed cur v) v (log ++ [(name, cur)])
      refine ⟨k + 1, by simpa using hk, ?_, ?_⟩
      · simp only [pipeLoop, hp, hcalls]
        simp
      · simp only [pipeLoop, hp]
        intro h
        simp [herr h]

/-- C3, amended. For every order in which ranging over the plugin map yields the
loaded plugins, InvokeEntityProcessing and InvokeGroupProcessing call them in
that order: the calls made are to the first `k` plugins yielded, one call each
and in the order yielded, and to all of them when no error is returned. When
the map holds no plugin no call is made and the empty result is returned, and
when it holds one plugin the single call is to that plugin on `opts` and its
outcome is returned: with at most one plugin loaded the calls, the result and
the error do not depend on the order yielded. -/
theorem invoke_follows_range_order (m : Manager) (order : List (String × Ref))
    (opts : PluginOpts) (h : RangeYields m order) :
    (∃ k, k ≤ order.length ∧
      (InvokeEntityProcessing order opts).calls.map Prod.fst = (order.take k).map Prod.fst ∧
      ((InvokeEntityProcessing order opts).err = none → k = order.length)) ∧
    (∃ k, k ≤ order.length ∧
      (InvokeGroupProcessing order opts).calls.map Prod.fst = (order.take k).map Prod.fst ∧
      ((InvokeGroupProcessing order opts).err = none → k = order.length)) ∧
    (m.entries = [] →
      InvokeEntityProcessing order opts = { res := {}, err := none, calls := [] } ∧
      InvokeGroupProcessing order opts = { res := {}, err := none, calls := [] }) ∧
    (∀ p r, m.entries = [(p, r)] →
      InvokeEntityProcessing order opts =
        (match r.ProcessEntity opts with
         | .ok res => { res := res, err := none, calls := [(p, opts)] }
         | .error e => { res := {}, err := some e, calls := [(p, opts)] }) ∧
      InvokeGroupProcessing order opts =
        (match r.ProcessGroup opts with
         | .ok res => { res := res, err := none, calls := [(p, opts)] }
         | .error e => { res := {}, err := some e, calls := [(p, opts)] })) := by
  refine ⟨?_, ?_, ?_, ?_⟩
  · have := pipeLoop_calls_in_order (fun r => r.ProcessEntity) feedEntity order opts {} []
    unfold InvokeEntityProcessing
    rw [entityLoop_eq_pipeLoop]
    simpa using this
  · have := pipeLoop_calls_in_order (fun r => r.ProcessGroup) feedGroup order opts {} []
    unfold InvokeGroupProcessing
    rw [groupLoop_eq_pipeLoop]
    simpa using this
  · intro hm
    unfold RangeYields at h
    rw [hm] at h
    rw [List.perm_nil.mp h]
    exact ⟨rfl, rfl⟩
  · intro p r hm
    unfold RangeYields at h
    rw [hm] at h
    rw [List.perm_singleton.mp h]
    constructor
    · unfold InvokeEntityProcessing
      simp only [entityLoop]
      cases r.ProcessEntity opts with
      | error e => rfl
      | ok v => rfl
    · unfold InvokeGroupProcessing
      simp only [groupLoop]
      cases r.ProcessGroup opts with
      | error e => rfl
      | ok v => rfl

/-- Witness for C3 amended: the manager with plugins "a" and "b", yielded as "b"
then "a": the calls are to "b", then to "a". -/
theorem invoke_follows_range_order_witness :
    RangeYields twoPluginManager [("b", tagPlugin "b"), ("a", tagPlugin "a")] ∧
    (InvokeEntityProcessing [("b", tagPlugin "b"), ("a", tagPlugin "a")] {}).calls.map Prod.fst
      = ["b", "a"] ∧
    ∃ k, k ≤ [("b", tagPlugin "b"), ("a", tagPlugin "a")].length ∧
      (InvokeEntityProcessing [("b", tagPlugin "b"), ("a", tagPlugin "a")] {}).calls.map
          Prod.fst =
        ([("b", tagPlugin "b"), ("a", tagPlugin "a")].take k).map Prod.fst ∧
      ((InvokeEntityProcessing [("b", tagPlugin "b"), ("a", tagPlugin "a")] {}).err = none →
        k = [("b", tagPlugin "b"), ("a", tagPlugin "a")].length) :=
  ⟨List.Perm.swap _ _ _, by decide,
   (invoke_follows_range_order twoPluginManager
      [("b", tagPlugin "b"), ("a", tagPlugin "a")] {} (List.Perm.swap _ _ _)).1⟩

/-! ## Properties of `LoadPlugins` -/

theorem mapGet_mapSet (kvs : List (String × Ref)) (k : String) (v : Ref) (k2 : String) :
    mapGet (mapSet kvs k v) k2 = if k = k2 then some v else mapGet kvs k2 := by
  induction kvs with
  | nil => simp [mapSet, mapGet]
  | cons kv rest ih =>
    obtain ⟨k3, v3⟩ := kv
    by_cases h3 : k3 = k
    · subst h3
      by_cases h32 : k3 = k2 <;> simp [mapSet, mapGet, h32]
    · by_cases h32 : k3 = k2
      · subst h32
        simp [mapSet, mapGet, h3, Ne.symm h3]
      · simp [mapSet, mapGet, h3, h32, ih]

/-- The loading loop on an allocated table never panics and yields the spec's
table. -/
theorem loadLoop_spec (connect : String → Except Error Ref) :
    ∀ (list : List String) (kvs : List (String × Ref)),
      ∃ kvs2, loadLoop connect list (some kvs) = some (some kvs2) ∧
        ∀ k, mapGet kvs2 k = tableAfter connect list kvs k := by
  intro list
  induction list with
  | nil => intro kvs; exact ⟨kvs, rfl, fun k => by simp [tableAfter]⟩
  | cons p ps ih =>
    intro kvs
    cases hc : connect p with
    | error e =>
      obtain ⟨kvs2, h1, h2⟩ := ih kvs
      refine ⟨kvs2, by simp [loadLoop, hc, h1], fun k => ?_⟩
      rw [h2 k]
      by_cases hk : k = p
      · subst hk; simp [tableAfter, loads, hc]
      · simp [tableAfter, hk]
    | ok im =>
      cases hi : im.Init with
      | some e =>
        obtain ⟨kvs2, h1, h2⟩ := ih kvs
        refine ⟨kvs2, by simp [loadLoop, hc, hi, h1], fun k => ?_⟩
        rw [h2 k]
        by_cases hk : k = p
        · subst hk; simp [tableAfter, loads, hc, hi]
        · simp [tableAfter, hk]
      | none =>
        obtain ⟨kvs2, h1, h2⟩ := ih (mapSet kvs p im)
        refine ⟨kvs2, by simp [loadLoop, hc, hi, h1], fun k => ?_⟩
        rw [h2 k]
        by_cases hk : k = p
        · subst hk
          simp [tableAfter, loads, hc, hi, mapGet_mapSet]
        · simp [tableAfter, hk, mapGet_mapSet, Ne.symm hk]

theorem loads_isSome (connect : String → Except Error Ref) (k : String) :
    (loads connect k).isSome ↔ ∃ im, connect k = .ok im ∧ im.Init = none := by
  unfold loads
  cases hc : connect k with
  | error e => simp
  | ok im =>
    cases hi : im.Init with
    | none => simp [hi]
    | some e => simp [hi]

/-- C9. With static loading enabled, for every configured list and every
outcome of `consumer.New` and `Init` per identifier, LoadPlugins on a manager
whose table is allocated (as `New` returns it) returns normally; afterwards a
configured identifier whose connection and Init both succeeded maps to its
plugin and every other key is as before, so the keys held are those held before
together with exactly the configured identifiers for which both steps
succeeded. -/
theorem LoadPlugins_loads_exactly (list : List String)
    (connect : String → Except Error Ref) (m : Manager) (kvs : List (String × Ref))
    (hm : m.plugins = some kvs) :
    ∃ kvs2, LoadPlugins true list connect m = some { plugins := some kvs2 } ∧
      (∀ k, mapGet kvs2 k = tableAfter connect list kvs k) ∧
      (∀ k, (mapGet kvs2 k).isSome ↔
        ((mapGet kvs k).isSome ∨ (k ∈ list ∧ ∃ im, connect k = .ok im ∧ im.Init = none))) := by
  obtain ⟨kvs2, h1, h2⟩ := loadLoop_spec connect list kvs
  refine ⟨kvs2, by simp [LoadPlugins, hm, h1], h2, fun k => ?_⟩
  rw [h2 k, ← loads_isSome]
  unfold tableAfter
  by_cases hk : k ∈ list
  · cases hl : loads connect k with
    | none => simp [hk]
    | some im => simp [hk]
  · simp [hk]

/-- Witness for C9: a fresh manager and a list whose first plugin fails to
connect, whose second fails Init and whose third loads. -/
theorem LoadPlugins_loads_exactly_witness :
    New.plugins = some [] ∧
    ∃ kvs2, LoadPlugins true ["bad", "noinit", "good"] exampleConnect New =
        some { plugins := some kvs2 } ∧
      (∀ k, mapGet kvs2 k = tableAfter exampleConnect ["bad", "noinit", "good"] [] k) ∧
      (∀ k, (mapGet kvs2 k).isSome ↔
        ((mapGet [] k).isSome ∨ (k ∈ ["bad", "noinit", "good"] ∧
          ∃ im, exampleConnect k = .ok im ∧ im.Init = none))) :=
  ⟨rfl, LoadPlugins_loads_exactly ["bad", "noinit", "good"] exampleConnect New [] rfl⟩

/-! ## Properties of server startup -/

theorem loadConfig_event (env : StartupEnv) (ev : Event) (h : loadConfig env = some ev) :
    ev = .Exit ∨ ∃ msg, ev = .Fatal msg := by
  unfold loadConfig at h
  split_ifs at h <;> simp at h <;> subst h <;> simp

theorem newServer_event (env : StartupEnv) (ev : Event) (h : newServer env = some ev) :
    ∃ msg, ev = .Fatal msg := by
  unfold newServer at h
  split_ifs at h <;> simp at h <;> subst h <;> simp

/-- A run of `main` that serves went through `bootstrapAndServe`. -/
theorem main_serves (env : StartupEnv) (h : Event.Serve ∈ main env) :
    main env = bootstrapAndServe env.bootstrap := by
  unfold main at h ⊢
  cases hl : loadConfig env with
  | some ev =>
    rw [hl] at h
    rcases loadConfig_event env ev hl with h1 | ⟨msg, h1⟩ <;> subst h1 <;> simp at h
  | none =>
    rw [hl] at h
    simp only at h ⊢
    split_ifs at h ⊢ with h1 h2
    · simp at h
    · simp at h
    · cases hn : newServer env with
      | some ev =>
        rw [hn] at h
        obtain ⟨msg, h3⟩ := newServer_event env ev hn
        subst h3
        simp at h
      | none => rfl

/-- C10. On every startup path of `main` that reaches serving, with or without
a bootstrap string, the steps are: at most one Bootstrap call, then
DisableBootstrap, then serving. So DisableBootstrap is called exactly once,
after any Bootstrap call and before serving, and no Bootstrap call follows
it. -/
theorem main_disables_bootstrap_before_serving (env : StartupEnv)
    (h : Event.Serve ∈ main env) :
    (main env).count .DisableBootstrap = 1 ∧
    ∃ pre, main env = pre ++ [.DisableBootstrap, .Serve] ∧
      (pre = [] ∨ ∃ id secret, pre = [.Bootstrap id secret]) := by
  have hm := main_serves env h
  rw [hm] at h ⊢
  unfold bootstrapAndServe at h ⊢
  by_cases h1 : env.bootstrap.length ≠ 0
  · by_cases h2 : (!containsColon env.bootstrap) = true
    · rw [if_pos h1, if_pos h2] at h; simp at h
    · match hs : splitOnChar ':' env.bootstrap.toList with
      | [] => rw [if_pos h1, if_neg h2, hs] at h; simp at h
      | [e0] => rw [if_pos h1, if_neg h2, hs] at h; simp at h
      | e0 :: e1 :: rest =>
        rw [if_pos h1, if_neg h2]
        exact ⟨by simp [List.count_cons], [.Bootstrap (String.mk e0) (String.mk e1)], rfl,
          Or.inr ⟨_, _, rfl⟩⟩
  · rw [if_neg h1]
    exact ⟨by simp [List.count_cons], [], rfl, Or.inl rfl⟩

/-- Witness for C10: a startup in which every step succeeds, given the
bootstrap string "root:secret". -/
theorem main_disables_bootstrap_before_serving_witness :
    main (goodEnv "root:secret") =
      [.Bootstrap "root" "secret", .DisableBootstrap, .Serve] ∧
    (main (goodEnv "root:secret")).count .DisableBootstrap = 1 ∧
    ∃ pre, main (goodEnv "root:secret") = pre ++ [.DisableBootstrap, .Serve] ∧
      (pre = [] ∨ ∃ id secret, pre = [.Bootstrap id secret]) :=
  ⟨by decide, main_disables_bootstrap_before_serving (goodEnv "root:secret") (by decide)⟩

/-! ## Properties of the hooks -/

/-- C4. SetManagingGroup, for every store, working group `g` and delta `dg`:
an empty `dg.ManagedBy` gives no error and an empty `g.ManagedBy`; a
`dg.ManagedBy` equal to `dg.Name` gives no error and that name, whatever the
store holds; any other value that the store resolves to a group gives no error
and that value; a value for which the store reports ErrUnknownGroup gives that
error and leaves the working group, so its ManagedBy, as it was. -/
theorem SetManagingGroup_run {σ : Type} (db : DB σ) (s : σ) (g dg : Group) :
    (dg.GetManagedBy = "" →
      (SetManagingGroup.Run db s g dg).1 = none ∧
      (SetManagingGroup.Run db s g dg).2.GetManagedBy = "") ∧
    (dg.GetManagedBy = dg.GetName →
      (SetManagingGroup.Run db s g dg).1 = none ∧
      (SetManagingGroup.Run db s g dg).2.GetManagedBy = dg.GetName) ∧
    (∀ mg, dg.GetManagedBy ≠ "" → dg.GetManagedBy ≠ dg.GetName →
      db.LoadGroup s dg.GetManagedBy = .ok mg →
      (SetManagingGroup.Run db s g dg).1 = none ∧
      (SetManagingGroup.Run db s g dg).2.GetManagedBy = dg.GetManagedBy) ∧
    (dg.GetManagedBy ≠ "" → dg.GetManagedBy ≠ dg.GetName →
      db.LoadGroup s dg.GetManagedBy = .error .ErrUnknownGroup →
      (SetManagingGroup.Run db s g dg).1 = some .ErrUnknownGroup ∧
      (SetManagingGroup.Run db s g dg).2 = g) := by
  have hset : ({ g with ManagedBy := dg.ManagedBy } : Group).GetManagedBy = dg.GetManagedBy := rfl
  refine ⟨?_, ?_, ?_, ?_⟩
  · intro h
    unfold SetManagingGroup.Run
    rw [if_pos h]
    exact ⟨rfl, hset.trans h⟩
  · intro h
    unfold SetManagingGroup.Run
    by_cases h0 : dg.GetManagedBy = ""
    · rw [if_pos h0]
      exact ⟨rfl, hset.trans h⟩
    · rw [if_neg h0, if_pos h]
      exact ⟨rfl, hset.trans h⟩
  · intro mg h0 h1 hl
    unfold SetManagingGroup.Run
    rw [if_neg h0, if_neg h1, hl]
    exact ⟨rfl, hset⟩
  · intro h0 h1 hl
    unfold SetManagingGroup.Run
    rw [if_neg h0, if_neg h1, hl]
    exact ⟨rfl, rfl⟩

/-- Witness for C4: the four cases of the hook test, on the flat-file store that
holds group "bar". -/
theorem SetManagingGroup_run_witness :
    ((SetManagingGroup.Run (defaultDB.asDB exampleProto) hookTestStore {}
        { Name := some "foo", ManagedBy := some "" }).1 = none ∧
      (SetManagingGroup.Run (defaultDB.asDB exampleProto) hookTestStore {}
        { Name := some "foo", ManagedBy := some "" }).2.GetManagedBy = "") ∧
    ((SetManagingGroup.Run (defaultDB.asDB exampleProto) hookTestStore {}
        { Name := some "foo", ManagedBy := some "foo" }).1 = none ∧
      (SetManagingGroup.Run (defaultDB.asDB exampleProto) hookTestStore {}
        { Name := some "foo", ManagedBy := some "foo" }).2.GetManagedBy = "foo") ∧
    ((SetManagingGroup.Run (defaultDB.asDB exampleProto) hookTestStore {}
        { Name := some "foo", ManagedBy := some "bar" }).1 = none ∧
      (SetManagingGroup.Run (defaultDB.asDB exampleProto) hookTestStore {}
        { Name := some "foo", ManagedBy := some "bar" }).2.GetManagedBy = "bar") ∧
    ((SetManagingGroup.Run (defaultDB.asDB exampleProto) hookTestStore {}
        { Name := some "foo", ManagedBy := some "baz" }).1 = some .ErrUnknownGroup ∧
      (SetManagingGroup.Run (defaultDB.asDB exampleProto) hookTestStore {}
        { Name := some "foo", ManagedBy := some "baz" }).2 = {}) :=
  ⟨(SetManagingGroup_run (defaultDB.asDB exampleProto) hookTestStore {}
      { Name := some "foo", ManagedBy := some "" }).1 (by decide),
   (SetManagingGroup_run (defaultDB.asDB exampleProto) hookTestStore {}
      { Name := some "foo", ManagedBy := some "foo" }).2.1 (by decide),
   (SetManagingGroup_run (defaultDB.asDB exampleProto) hookTestStore {}
      { Name := some "foo", ManagedBy := some "bar" }).2.2.1 { Name := some "bar" }
      (by decide) (by decide) (by decide),
   (SetManagingGroup_run (defaultDB.asDB exampleProto) hookTestStore {}
      { Name := some "foo", ManagedBy := some "baz" }).2.2.2
      (by decide) (by decide) (by decide)⟩

/-- C5. FailOnExistingEntity, for every store and delta entity: Run returns
ErrDuplicateEntityID exactly when the store holds an entity under the delta's
ID, and no error otherwise; the working entity and the store come back as they
were. -/
theorem FailOnExistingEntity_run {σ : Type} (db : DB σ) (s : σ) (e de : Entity) :
    ((FailOnExistingEntity.Run db s e de).1 = some .ErrDuplicateEntityID ↔
      ∃ found, db.LoadEntity s de.GetID = .ok found) ∧
    ((¬ ∃ found, db.LoadEntity s de.GetID = .ok found) →
      (FailOnExistingEntity.Run db s e de).1 = none) ∧
    (FailOnExistingEntity.Run db s e de).2 = (e, s) := by
  unfold FailOnExistingEntity.Run
  cases h : db.LoadEntity s de.GetID with
  | error err => simp
  | ok found => simp

/-- Witness for C5: the two cases of the hook test, on the flat-file store that
holds entity "foo". -/
theorem FailOnExistingEntity_run_witness :
    (FailOnExistingEntity.Run (defaultDB.asDB exampleProto) hookTestStore {}
        { ID := some "foo" }).1 = some .ErrDuplicateEntityID ∧
    (FailOnExistingEntity.Run (defaultDB.asDB exampleProto) hookTestStore {}
        { ID := some "bar" }).1 = none :=
  ⟨((FailOnExistingEntity_run (defaultDB.asDB exampleProto) hookTestStore {}
      { ID := some "foo" }).1).mpr ⟨{ ID := some "foo", Number := some 42 }, by decide⟩,
   (FailOnExistingEntity_run (defaultDB.asDB exampleProto) hookTestStore {}
      { ID := some "bar" }).2.1 (by
        rintro ⟨found, h⟩
        have h2 : (defaultDB.asDB exampleProto).LoadEntity hookTestStore
            (Entity.GetID { ID := some "bar" }) = .error .ErrUnknownEntity := by decide
        rw [h2] at h
        cases h)⟩

/-! ## Properties of the flat-file store -/

/-- The store tests of the repository pass on the model: discovery on the
empty store and after one save, save then load then delete of group "foo", and
the lookup of entity "foo" by its number 42. -/
theorem protodb_passes_store_tests :
    defaultDB.DiscoverEntityIDs defaultDB.emptyStore = .ok [] ∧
    defaultDB.DiscoverEntityIDs
        (defaultDB.SaveEntity exampleProto defaultDB.emptyStore { ID := some "foo" }).2
      = .ok ["foo"] ∧
    defaultDB.LoadGroup exampleProto
        (defaultDB.SaveGroup exampleProto defaultDB.emptyStore { Name := some "foo" }).2 "foo"
      = .ok { Name := some "foo" } ∧
    (defaultDB.DeleteGroup
        (defaultDB.SaveGroup exampleProto defaultDB.emptyStore { Name := some "foo" }).2
        "foo").1 = none ∧
    defaultDB.LoadGroup exampleProto
        (defaultDB.DeleteGroup
          (defaultDB.SaveGroup exampleProto defaultDB.emptyStore { Name := some "foo" }).2
          "foo").2 "foo" = .error .ErrUnknownGroup ∧
    defaultDB.LoadEntityNumber exampleProto
        (defaultDB.SaveEntity exampleProto defaultDB.emptyStore
          { ID := some "foo", Number := some 42, Secret := some "" }).2 42
      = .ok { ID := some "foo", Number := some 42, Secret := some "" } := by
  decide

theorem file?_setFile (fs : FS) (p : Path) (f : File) (k : Path) :
    ({ fs with files := setFile p f fs.files } : FS).file? k =
      if k = p then some f else fs.file? k := by
  unfold FS.file?
  simp only
  induction fs.files with
  | nil =>
    by_cases hk : k = p
    · simp [setFile, hk]
    · simp [setFile, hk, Ne.symm hk]
  | cons x rest ih =>
    obtain ⟨q, g⟩ := x
    by_cases hq : q = p
    · by_cases hk : k = p
      · simp [setFile, hq, hk]
      · simp [setFile, hq, hk, Ne.symm hk]
    · by_cases hqk : q = k
      · have hk : k ≠ p := fun h => hq (hqk.trans h)
        simp [setFile, hq, hqk, hk]
      · simp only [setFile, hq, if_false, List.find?_cons, hqk, decide_False]
        exact ih

theorem file?_filter (fs : FS) (p : Path) (k : Path) :
    ({ fs with files := fs.files.filter fun x => x.1 ≠ p } : FS).file? k =
      if k = p then none else fs.file? k := by
  unfold FS.file?
  simp only [List.find?_filter]
  by_cases hk : k = p
  · subst hk
    rw [if_pos rfl]
    have : List.find? (fun (a : Path × File) =>
        decide (decide (a.1 ≠ k) = true ∧ decide (a.1 = k) = true)) fs.files = none := by
      rw [List.find?_eq_none]
      intro x _
      by_cases hx : x.1 = k <;> simp [hx]
    rw [this]
    rfl
  · rw [if_neg hk]
    have : (fun (a : Path × File) =>
        decide (decide (a.1 ≠ p) = true ∧ decide (a.1 = k) = true)) =
        fun a => decide (a.1 = k) := by
      funext a
      by_cases ha : a.1 = k
      · have : a.1 ≠ p := fun h => hk (ha.symm.trans h)
        simp [ha, hk]
      · simp [ha]
    rw [this]

/-- What a not-exist answer of `ReadFile` says about the file system. -/
theorem ReadFile_enoent (fs : FS) (p : Path) (h : ReadFile fs p = .error .ENOENT) :
    hasNul p = false ∧ fs.dir? p = none ∧ fs.file? p = none ∧ fs.underFile p = false := by
  unfold ReadFile at h
  by_cases h1 : hasNul p = true
  · simp [h1] at h
  · by_cases h2 : (fs.dir? p).isSome = true
    · simp [h1, h2] at h
    · cases h3 : fs.file? p with
      | some f =>
        rw [if_neg h1, if_neg h2, h3] at h
        simp only at h
        split_ifs at h
        cases h
      | none =>
        rw [if_neg h1, if_neg h2, h3] at h
        simp only at h
        by_cases h4 : fs.underFile p = true
        · simp [h4] at h
        · exact ⟨by simpa using h1, by simpa using h2, rfl, by simpa using h4⟩

theorem underFile_of_files (fs fs2 : FS) (p : Path)
    (h : ∀ k, (fs2.file? k).isSome = true → (fs.file? k).isSome = true)
    (hu : fs.underFile p = false) : fs2.underFile p = false := by
  unfold FS.underFile at hu ⊢
  rw [List.any_eq_false] at hu ⊢
  intro q hq hsome
  exact hu q hq (h _ hsome)

/-- A successful save into a store that reports the name unknown creates the
file, readable, in a directory the server may change. -/
theorem WriteFile_new (fs : FS) (p : Path) (data : Bytes) (fs2 : FS)
    (hr : ReadFile fs p = .error .ENOENT) (hw : WriteFile fs p data = .ok fs2) :
    fs.dir? p.parent = some true ∧
    fs2 = { fs with files := setFile p { data := data } fs.files } := by
  obtain ⟨hn, hd, hf, _⟩ := ReadFile_enoent fs p hr
  unfold WriteFile at hw
  rw [hn, hd, hf] at hw
  simp only [Bool.false_eq_true, if_false, Option.isSome_none] at hw
  cases hp : fs.dir? p.parent with
  | none =>
    rw [hp] at hw
    simp only at hw
    split_ifs at hw
  | some w =>
    cases w with
    | false => rw [hp] at hw; cases hw
    | true =>
      rw [hp] at hw
      simp only [Except.ok.injEq] at hw
      exact ⟨rfl, hw.symm⟩

/-- C6. Group round trip on the flat-file store, for every store, every group
`g` and its name: where the store reports the name unknown (it was never
saved, LoadGroup returns ErrUnknownGroup) and SaveGroup of `g` succeeds, with
unmarshal inverting marshal on `g`, LoadGroup returns no error and `g`;
DeleteGroup of the name then succeeds, and LoadGroup again returns
ErrUnknownGroup. -/
theorem group_save_load_delete (pdb : ProtoDB) (pc : Proto) (fs : FS) (g : Group)
    (bytes : Bytes)
    (h0 : pdb.LoadGroup pc fs g.GetName = .error .ErrUnknownGroup)
    (hm : pc.MarshalGroup g = some bytes) (hu : pc.UnmarshalGroup bytes = some g)
    (hs : (pdb.SaveGroup pc fs g).1 = none) :
    pdb.LoadGroup pc (pdb.SaveGroup pc fs g).2 g.GetName = .ok g ∧
    (pdb.DeleteGroup (pdb.SaveGroup pc fs g).2 g.GetName).1 = none ∧
    pdb.LoadGroup pc (pdb.DeleteGroup (pdb.SaveGroup pc fs g).2 g.GetName).2 g.GetName =
      .error .ErrUnknownGroup := by
  have hr : ReadFile fs (Join [pdb.dataRoot, groupSubdir, datName g.GetName]) =
      .error .ENOENT := by
    unfold ProtoDB.LoadGroup at h0
    cases hrf : ReadFile fs (Join [pdb.dataRoot, groupSubdir, datName g.GetName]) with
    | error err =>
      rw [hrf] at h0
      cases err <;> simp [IsNotExist] at h0 ⊢
    | ok data =>
      rw [hrf] at h0
      simp only at h0
      cases hun : pc.UnmarshalGroup data with
      | none => rw [hun] at h0; cases h0
      | some g2 => rw [hun] at h0; cases h0
  obtain ⟨hn, hd, hf, huf⟩ := ReadFile_enoent fs _ hr
  generalize hp : Join [pdb.dataRoot, groupSubdir, datName g.GetName] = p at hr hn hd hf huf
  cases hw : WriteFile fs p bytes with
  | error err =>
    simp [ProtoDB.SaveGroup, hp, hm, hw] at hs
  | ok fs2 =>
    obtain ⟨hpar, hfs2⟩ := WriteFile_new fs p bytes fs2 hr hw
    have hsave : pdb.SaveGroup pc fs g = (none, fs2) := by
      simp [ProtoDB.SaveGroup, hp, hm, hw]
    have hfile2 : fs2.file? p = some { data := bytes } := by
      rw [hfs2, file?_setFile, if_pos rfl]
    have hdir2 : ∀ k, fs2.dir? k = fs.dir? k := by
      intro k; rw [hfs2]; rfl
    have hread2 : ReadFile fs2 p = .ok bytes := by
      unfold ReadFile
      rw [hn, hdir2, hd, hfile2]
      rfl
    obtain ⟨fs3, hfs3⟩ : ∃ fs3 : FS,
        fs3 = { fs2 with files := fs2.files.filter fun f => f.1 ≠ p } := ⟨_, rfl⟩
    have hrem : Remove fs2 p = .ok fs3 := by
      unfold Remove
      rw [hn, hfile2, hdir2, hpar, hfs3]
      rfl
    have hdel : pdb.DeleteGroup fs2 g.GetName = (none, fs3) := by
      unfold ProtoDB.DeleteGroup
      rw [hp, hrem]
    have hread3 : ReadFile fs3 p = .error .ENOENT := by
      have hfile3 : ∀ k, fs3.file? k = if k = p then none else fs.file? k := by
        intro k
        rw [hfs3, file?_filter, hfs2, file?_setFile]
        by_cases hk : k = p <;> simp [hk]
      have hunder : fs3.underFile p = false := by
        apply underFile_of_files fs _ p _ huf
        intro k hk
        rw [hfile3] at hk
        by_cases hkp : k = p
        · simp [hkp] at hk
        · simpa [hkp] using hk
      have hdir3 : fs3.dir? p = none := by
        rw [← hd, ← hdir2, hfs3]; rfl
      unfold ReadFile
      rw [hn, hunder, hfile3 p, if_pos rfl, hdir3]
      rfl
    rw [hsave]
    refine ⟨?_, ?_, ?_⟩
    · show pdb.LoadGroup pc fs2 g.GetName = .ok g
      unfold ProtoDB.LoadGroup
      rw [hp, hread2]
      simp only [hu]
    · show (pdb.DeleteGroup fs2 g.GetName).1 = none
      rw [hdel]
    · show pdb.LoadGroup pc (pdb.DeleteGroup fs2 g.GetName).2 g.GetName = _
      rw [hdel]
      show pdb.LoadGroup pc fs3 g.GetName = _
      unfold ProtoDB.LoadGroup
      rw [hp, hread3]
      rfl

/-- Witness for C6: the empty store and the group of the store test. -/
theorem group_save_load_delete_witness :
    defaultDB.LoadGroup exampleProto defaultDB.emptyStore "foo" = .error .ErrUnknownGroup ∧
    defaultDB.LoadGroup exampleProto
        (defaultDB.SaveGroup exampleProto defaultDB.emptyStore { Name := some "foo" }).2 "foo"
      = .ok { Name := some "foo" } ∧
    (defaultDB.DeleteGroup
        (defaultDB.SaveGroup exampleProto defaultDB.emptyStore { Name := some "foo" }).2
        "foo").1 = none ∧
    defaultDB.LoadGroup exampleProto
        (defaultDB.DeleteGroup
          (defaultDB.SaveGroup exampleProto defaultDB.emptyStore { Name := some "foo" }).2
          "foo").2 "foo" = .error .ErrUnknownGroup :=
  ⟨by decide,
   group_save_load_delete defaultDB exampleProto defaultDB.emptyStore { Name := some "foo" }
     [1, 3, 102, 111, 111, 0, 0] (by decide) (by decide) (by decide) (by decide)⟩

/-- C7. Discovery on the empty store yields the empty sequence, but after
saving the one entity "alice.data" (resp. group "alice.data") it yields
"alicea.dat": the first ".dat" of the file name "alice.data.dat" is removed,
not the extension. -/
theorem Discover_removes_first_dat :
    defaultDB.DiscoverEntityIDs defaultDB.emptyStore = .ok [] ∧
    defaultDB.DiscoverGroupNames defaultDB.emptyStore = .ok [] ∧
    (defaultDB.SaveEntity exampleProto defaultDB.emptyStore { ID := some "alice.data" }).1
      = none ∧
    defaultDB.DiscoverEntityIDs
        (defaultDB.SaveEntity exampleProto defaultDB.emptyStore { ID := some "alice.data" }).2
      = .ok ["alicea.dat"] ∧
    (defaultDB.SaveGroup exampleProto defaultDB.emptyStore { Name := some "alice.data" }).1
      = none ∧
    defaultDB.DiscoverGroupNames
        (defaultDB.SaveGroup exampleProto defaultDB.emptyStore { Name := some "alice.data" }).2
      = .ok ["alicea.dat"] := by
  decide

/-- C8. After the one successful save of entity "alice.data" with number 42
(resp. group "alice.data") into the empty store, the record is stored and loads
by its key, but the lookup by number returns ErrInternalError both for the
number 42, which a stored record has, and for the number 7, which none has. -/
theorem LoadNumber_fails_on_inner_dat :
    ((defaultDB.SaveEntity exampleProto defaultDB.emptyStore
        { ID := some "alice.data", Number := some 42 }).1 = none ∧
      defaultDB.LoadEntity exampleProto
          (defaultDB.SaveEntity exampleProto defaultDB.emptyStore
            { ID := some "alice.data", Number := some 42 }).2 "alice.data" =
        .ok { ID := some "alice.data", Number := some 42 } ∧
      defaultDB.LoadEntityNumber exampleProto
          (defaultDB.SaveEntity exampleProto defaultDB.emptyStore
            { ID := some "alice.data", Number := some 42 }).2 42 =
        .error .ErrInternalError ∧
      defaultDB.LoadEntityNumber exampleProto
          (defaultDB.SaveEntity exampleProto defaultDB.emptyStore
            { ID := some "alice.data", Number := some 42 }).2 7 =
        .error .ErrInternalError) ∧
    ((defaultDB.SaveGroup exampleProto defaultDB.emptyStore
        { Name := some "alice.data", Number := some 42 }).1 = none ∧
      defaultDB.LoadGroup exampleProto
          (defaultDB.SaveGroup exampleProto defaultDB.emptyStore
            { Name := some "alice.data", Number := some 42 }).2 "alice.data" =
        .ok { Name := some "alice.data", Number := some 42 } ∧
      defaultDB.LoadGroupNumber exampleProto
          (defaultDB.SaveGroup exampleProto defaultDB.emptyStore
            { Name := some "alice.data", Number := some 42 }).2 42 =
        .error .ErrInternalError ∧
      defaultDB.LoadGroupNumber exampleProto
          (defaultDB.SaveGroup exampleProto defaultDB.emptyStore
            { Name := some "alice.data", Number := some 42 }).2 7 =
        .error .ErrInternalError) := by
  decide

/-! ## Properties of the empty pipeline, bootstrap input, delete and save -/

/-- C15. When no plugin is loaded, ranging over the plugin map yields nothing
and, for every `opts`, InvokeEntityProcessing and InvokeGroupProcessing make no
call and return a nil error with the empty PluginResult, whatever Entity or
Group `opts` carries. -/
theorem invoke_without_plugins (m : Manager) (order : List (String × Ref))
    (opts : PluginOpts) (hm : m.entries = []) (ho : RangeYields m order) :
    InvokeEntityProcessing order opts = { res := {}, err := none, calls := [] } ∧
    InvokeGroupProcessing order opts = { res := {}, err := none, calls := [] } := by
  unfold RangeYields at ho
  rw [hm] at ho
  rw [List.perm_nil.mp ho]
  exact ⟨rfl, rfl⟩

/-- Witness for C15: a fresh manager, and options that carry an entity and a
group; the result carries neither. -/
theorem invoke_without_plugins_witness :
    New.entries = [] ∧ RangeYields New [] ∧
    InvokeEntityProcessing []
        { Action := "EntityCreate", Entity := some { ID := some "root" },
          Group := some { Name := some "wheel" } } =
      { res := {}, err := none, calls := [] } ∧
    InvokeGroupProcessing []
        { Action := "EntityCreate", Entity := some { ID := some "root" },
          Group := some { Name := some "wheel" } } =
      { res := {}, err := none, calls := [] } :=
  ⟨rfl, List.Perm.refl _,
   invoke_without_plugins New []
     { Action := "EntityCreate", Entity := some { ID := some "root" },
       Group := some { Name := some "wheel" } } rfl (List.Perm.refl _)⟩

theorem splitOnChar_without_sep (sep : Char) (b : List Char) (hb : sep ∉ b) :
    splitOnChar sep b = [b] := by
  induction b with
  | nil => rfl
  | cons c cs ih =>
    have hc : c ≠ sep := fun h => hb (h ▸ List.mem_cons_self _ _)
    have hcs : sep ∉ cs := fun h => hb (List.mem_cons_of_mem _ h)
    simp [splitOnChar, hc, ih hcs]

theorem splitOnChar_one_sep (sep : Char) (a b : List Char) (ha : sep ∉ a) (hb : sep ∉ b) :
    splitOnChar sep (a ++ sep :: b) = [a, b] := by
  induction a with
  | nil => simp [splitOnChar, splitOnChar_without_sep sep b hb]
  | cons c cs ih =>
    have hc : c ≠ sep := fun h => ha (h ▸ List.mem_cons_self _ _)
    have hcs : sep ∉ cs := fun h => ha (List.mem_cons_of_mem _ h)
    simp [splitOnChar, hc, ih hcs]

/-- A bootstrap string with exactly one colon is passed on whole: Bootstrap is
invoked with the part before and the part after the colon. -/
theorem bootstrap_one_colon (a b : List Char) (ha : ':' ∉ a) (hb : ':' ∉ b) :
    bootstrapAndServe (String.mk (a ++ ':' :: b)) =
      [.Bootstrap (String.mk a) (String.mk b), .DisableBootstrap, .Serve] := by
  unfold bootstrapAndServe
  have h1 : (String.mk (a ++ ':' :: b)).length ≠ 0 := by
    simp [String.length]
  have h2 : containsColon (String.mk (a ++ ':' :: b)) = true := by
    simp [containsColon]
  rw [if_pos h1, h2]
  simp only [Bool.not_true, Bool.false_eq_true, if_false]
  have h3 : (String.mk (a ++ ':' :: b)).toList = a ++ ':' :: b := rfl
  rw [h3, splitOnChar_one_sep ':' a b ha hb]

/-- A non-empty bootstrap string without a colon ends startup with a fatal
error, before any Bootstrap call. -/
theorem bootstrap_without_colon (s : String) (h1 : s.length ≠ 0)
    (h2 : containsColon s = false) :
    bootstrapAndServe s =
      [.Fatal "Bootstrap string must be of the form <entity>:<secret>"] := by
  unfold bootstrapAndServe
  rw [if_pos h1, h2]
  rfl

/-- C11. Given the bootstrap string "root:pass:word", startup does not fail:
Bootstrap is invoked with the ID "root" and the secret "pass", which joined by a
colon are not the string given; the part ":word" is dropped without an error,
and the server goes on to serve. -/
theorem bootstrap_drops_after_second_colon :
    main (goodEnv "root:pass:word") =
      [.Bootstrap "root" "pass", .DisableBootstrap, .Serve] ∧
    "root" ++ ":" ++ "pass" ≠ "root:pass:word" := by
  decide

/-- C12. DeleteEntity of a key that is not stored returns the error of
`os.Remove` as it is, not ErrUnknownEntity, where DeleteGroup returns
ErrUnknownGroup; and DeleteGroup of a stored group whose file cannot be removed
returns nil, not the internal error, and leaves the record in the store. -/
theorem delete_errors_not_distinct :
    defaultDB.DeleteEntity defaultDB.emptyStore "ghost" =
      (some (.pathError .ENOENT), defaultDB.emptyStore) ∧
    defaultDB.DeleteGroup defaultDB.emptyStore "ghost" =
      (some .ErrUnknownGroup, defaultDB.emptyStore) ∧
    Remove (lockedGroupsStore [1, 3, 102, 111, 111, 0, 0])
        (Join [defaultDB.dataRoot, groupSubdir, datName "foo"]) = .error .EACCES ∧
    defaultDB.DeleteGroup (lockedGroupsStore [1, 3, 102, 111, 111, 0, 0]) "foo" =
      (none, lockedGroupsStore [1, 3, 102, 111, 111, 0, 0]) ∧
    defaultDB.LoadGroup exampleProto
        (defaultDB.DeleteGroup (lockedGroupsStore [1, 3, 102, 111, 111, 0, 0]) "foo").2 "foo" =
      .ok { Name := some "foo" } := by
  decide

/-- C14. An entity (resp. group) that cannot be marshalled is saved all the
same: SaveEntity (resp. SaveGroup) returns nil and has written a file without
contents, from which the empty record is loaded. -/
theorem save_ignores_marshal_error :
    (strictProto.MarshalEntity { Number := some 7 } = none ∧
      (defaultDB.SaveEntity strictProto defaultDB.emptyStore { Number := some 7 }).1 = none ∧
      (defaultDB.SaveEntity strictProto defaultDB.emptyStore { Number := some 7 }).2.files =
        [(Join [defaultDB.dataRoot, entitySubdir, ".dat"], { data := [] })] ∧
      defaultDB.LoadEntity strictProto
        (defaultDB.SaveEntity strictProto defaultDB.emptyStore { Number := some 7 }).2 "" =
        .ok {}) ∧
    (strictProto.MarshalGroup { Number := some 7 } = none ∧
      (defaultDB.SaveGroup strictProto defaultDB.emptyStore { Number := some 7 }).1 = none ∧
      (defaultDB.SaveGroup strictProto defaultDB.emptyStore { Number := some 7 }).2.files =
        [(Join [defaultDB.dataRoot, groupSubdir, ".dat"], { data := [] })] ∧
      defaultDB.LoadGroup strictProto
        (defaultDB.SaveGroup strictProto defaultDB.emptyStore { Number := some 7 }).2 "" =
        .ok {}) := by
  decide

/-! ## Properties of hook registration -/

/-- C13. For every manager reference `m` and every list of automatic actions,
RegisterEntityHooks (resp. RegisterGroupHooks) makes one registration per
action, in list order: the i-th is made under the name of the i-th action, and
its constructor returns, for every RefContext, no error and the hook whose
action is that i-th action and whose manager reference is `m`. Running such a
hook of a manager returns the error of that manager's pipeline, invoked with
the hook's action. -/
theorem register_hooks_per_action {μ σ : Type} (m : μ) (actions : List PluginAction) :
    ((@RegisterEntityHooks μ σ m actions).map Prod.fst = actions ∧
      ∀ i : Fin actions.length, ∃ hc,
        (@RegisterEntityHooks μ σ m actions)[i.val]? = some (actions.get i, hc) ∧
        ∀ r : RefContext σ, hc r = .ok { action := actions.get i, mref := m }) ∧
    ((@RegisterGroupHooks μ σ m actions).map Prod.fst = actions ∧
      ∀ i : Fin actions.length, ∃ hc,
        (@RegisterGroupHooks μ σ m actions)[i.val]? = some (actions.get i, hc) ∧
        ∀ r : RefContext σ, hc r = .ok { action := actions.get i, mref := m }) ∧
    (∀ (mgr : Manager) (i : Fin actions.length) (order : List (String × Ref))
        (e : Entity) (g : Group),
      (∃ hc, (@RegisterEntityHooks Manager σ mgr actions)[i.val]? = some (actions.get i, hc) ∧
        ∀ r : RefContext σ, ∃ h, hc r = .ok h ∧ h.mref = mgr ∧
          h.Run order e =
            (InvokeEntityProcessing order { Action := actions.get i, Entity := some e }).err) ∧
      (∃ hc, (@RegisterGroupHooks Manager σ mgr actions)[i.val]? = some (actions.get i, hc) ∧
        ∀ r : RefContext σ, ∃ h, hc r = .ok h ∧ h.mref = mgr ∧
          h.Run order g =
            (InvokeGroupProcessing order { Action := actions.get i, Group := some g }).err)) := by
  have hE : ∀ (ν : Type) (n : ν) (i : Fin actions.length),
      (@RegisterEntityHooks ν σ n actions)[i.val]? =
        some (actions.get i, fun _ => .ok { action := actions.get i, mref := n }) := by
    intro ν n i
    unfold RegisterEntityHooks
    rw [List.getElem?_ofFn]
    simp [List.ofFnNthVal]
  have hG : ∀ (ν : Type) (n : ν) (i : Fin actions.length),
      (@RegisterGroupHooks ν σ n actions)[i.val]? =
        some (actions.get i, fun _ => .ok { action := actions.get i, mref := n }) := by
    intro ν n i
    unfold RegisterGroupHooks
    rw [List.getElem?_ofFn]
    simp [List.ofFnNthVal]
  refine ⟨⟨?_, ?_⟩, ⟨?_, ?_⟩, ?_⟩
  · unfold RegisterEntityHooks
    rw [List.map_ofFn]
    exact List.ofFn_get actions
  · intro i
    exact ⟨_, hE μ m i, fun _ => rfl⟩
  · unfold RegisterGroupHooks
    rw [List.map_ofFn]
    exact List.ofFn_get actions
  · intro i
    exact ⟨_, hG μ m i, fun _ => rfl⟩
  · intro mgr i order e g
    exact ⟨⟨_, hE Manager mgr i, fun _ => ⟨_, rfl, rfl, rfl⟩⟩,
      ⟨_, hG Manager mgr i, fun _ => ⟨_, rfl, rfl, rfl⟩⟩⟩

end NetAuth
